import Mathlib

/-!
Verification development for the marytreat local-project core
(src/marytreat/core/local.py).

Python strings are embedded as `List Char`; the regex and string operations
used by the source are implemented by structural recursion so that every
definition evaluates by kernel reduction.  Machine state (the project folder,
the map tree, the topic trees) is explicit.  Where the source calls into
mary_xml.py or constants.py, which are not part of the repository snapshot,
the definitions carry a doc comment starting with `Modelled from the spec:`
and follow the spec's contract for those collaborators.
-/

namespace Marytreat

/-- Python strings are modelled as lists of characters. -/
abbrev Str := List Char

/-- ASCII word characters, the fragment of the regex class `\w` that this
development models (all inputs appearing in the theorems below are ASCII;
`re.sub(r'\W+', '', ..., flags=re.ASCII)` in the source is exactly this class,
the flag-less uses agree with it on ASCII input). -/
def isWordChar (c : Char) : Bool := c.isAlphanum || c = '_'

/-- Association-list lookup, mirroring a Python `dict` read
(`d[k]` / `k in d`); insertion order is kept by the list. -/
def lookupA {α β : Type} [DecidableEq α] : List (α × β) → α → Option β
  | [], _ => none
  | (k, v) :: rest, a => if k = a then some v else lookupA rest a

/-- Python `s.split(sep)` for a one-character separator: splits at every
occurrence and keeps empty pieces. -/
def splitOnChar (sep : Char) : Str → List Str
  | [] => [[]]
  | c :: cs =>
    match splitOnChar sep cs with
    | [] => [[]]
    | p :: ps => if c = sep then [] :: p :: ps else (c :: p) :: ps

/-- Python `sep.join(parts)`. -/
def joinWith (sep : Str) : List Str → Str
  | [] => []
  | [p] => p
  | p :: q :: rest => p ++ sep ++ joinWith sep (q :: rest)

/-- Python `s.rsplit('.', 1)`: `some (before, after)` split at the last dot,
`none` when the string has no dot. -/
def rsplitDotAux : Str → Option (Str × Str)
  | [] => none
  | c :: cs =>
    match rsplitDotAux cs with
    | some (b, a) => some (c :: b, a)
    | none => if c = '.' then some ([], cs) else none

/-- Decimal digit character. -/
def digitChar (n : Nat) : Char := Char.ofNat (48 + n)

/-- Decimal representation of a natural number (Python `str(n)`), with an
explicit fuel argument so that it reduces in the kernel. -/
def natToStrAux : Nat → Nat → Str
  | 0, _ => []
  | fuel + 1, n => if n < 10 then [digitChar n] else natToStrAux fuel (n / 10) ++ [digitChar (n % 10)]

/-- Python `str(n)` for a natural number. -/
def natToStr (n : Nat) : Str := natToStrAux (n + 1) n

/-! ## `file_rename` (local.py lines 25-37) -/

/-- The four ways `file_rename` can end: return after the missing-old-path
warning, return after the new-path-exists warning, raise `FileExistsError`,
or actually rename. -/
inductive RenameOutcome
  | skippedMissingOld
  | skippedNewExists
  | raisedFileExists
  | renamed
  deriving DecidableEq

/-- The source function `file_rename(old_path, new_path)` over a folder state given by the list of
existing paths: mirrors the two existence checks, the `old == new` raise and
the `os.rename` of the source. -/
def file_rename (disk : List Str) (oldPath newPath : Str) : RenameOutcome × List Str :=
  if oldPath ∉ disk then (.skippedMissingOld, disk)
  else if newPath ∈ disk then (.skippedNewExists, disk)
  else if oldPath = newPath then (.raisedFileExists, disk)
  else (.renamed, disk.map (fun p => if p = oldPath then newPath else p))

/-! ## `Image.generate_name` (local.py lines 682-706) -/

/-- The source function `Image.generate_name(prefix)` as a function of the image's disambiguated
title (`temp_title`), its `href` and the prefix.  `ext` is computed the way
`Image.__init__` computes it (`'.' + href.rsplit('.', 1)[1]`). -/
def Image.generate_name (tempTitle : Option Str) (href : Str) (pfx : Str) : Str :=
  let ext : Str := '.' :: ((rsplitDotAux href).map Prod.snd).getD []
  let name : Str :=
    match tempTitle with
    | some t => joinWith ['_'] (splitOnChar ' ' t)
    | none =>
      let base := ((rsplitDotAux href).map Prod.fst).getD href
      (splitOnChar '/' base).getLastD []
  ("img_".toList) ++ pfx ++ '_' :: name.filter isWordChar ++ ext

/-- The sanitiser of the amended claim C6, following the spec's words with the
two corrections the counterexample forces: space characters (not all
whitespace) become underscores, and non-word characters are stripped from the
href-derived name as well. -/
def sanitizedSpec (tempTitle : Option Str) (href : Str) : Str :=
  match tempTitle with
  | some t => (t.map (fun c => if c = ' ' then '_' else c)).filter isWordChar
  | none =>
    ((splitOnChar '/' (((rsplitDotAux href).map Prod.fst).getD href)).getLastD []).filter isWordChar

/-! ## Topic casting (local.py lines 557-595)

The casting primitives `convert_to_concept` / `convert_to_reference` /
`convert_to_task` live in mary_xml.py, which is not part of the repository
snapshot. -/

/-- A topic document tree as casting sees it: the root tag, the
classification attribute, and the rest of the tree, which casting leaves
alone. -/
structure CastTree where
  rootTag : Str
  outputclass : Option Str
  body : List Str
  deriving DecidableEq

/-- Modelled from the spec: the `convert_to_*` primitives called by
`LocalTopic._cast` live in mary_xml.py, which is missing from src/.  Per
spec §4.3, casting "rewrites the tree's root tag and classification attribute
to match the target variant". -/
def cast_to (tag oc : Str) (t : CastTree) : CastTree :=
  { t with rootTag := tag, outputclass := some oc }

/-! ## Provenance detection (local.py lines 164-216) -/

/-- The source function `LocalMap.scan_folder`: group the folder's file names by extension,
skipping names without a dot; a name with several dots keeps everything
before the last dot as its base name.  Returns the groups in first-seen
order, mirroring a Python dict. -/
def scan_folder (files : List Str) : List (Str × List Str) :=
  files.foldl
    (fun contentTypes fl =>
      if '.' ∉ fl then contentTypes
      else
        let flParts := splitOnChar '.' fl
        let basename := if flParts.length = 2 then flParts.headD []
                        else joinWith ['.'] flParts.dropLast
        let ext := flParts.getLastD []
        match lookupA contentTypes ext with
        | none => contentTypes ++ [(ext, [basename])]
        | some _ => contentTypes.map (fun p => if p.1 = ext then (p.1, p.2 ++ [basename]) else p))
    []

/-- How `check_project_folder_content` can fail: the `FileNotFoundError`
raised with the symmetric-difference report, or the `KeyError` from
`content_types['dita']` when the 3sish group exists but no dita group does. -/
inductive ProvenanceError
  | inconsistent (problematicFiles : List Str)
  | keyErrorDita
  deriving DecidableEq

/-- The symmetric difference of two base-name lists
(`set(ditas) ^ set(ishes)`), kept as a list in a canonical order. -/
def symmDiffList (ditas ishes : List Str) : List Str :=
  ditas.filter (fun b => b ∉ ishes) ++ ishes.filter (fun b => b ∉ ditas)

/-- The source function `LocalMap.check_project_folder_content` over the folder's file-name list:
cheetah iff a `3sish` extension group exists, in which case the lengths of
the `dita` and `3sish` groups are compared and a mismatch raises with the
symmetric difference of the two base-name sets. -/
def check_project_folder_content (files : List Str) :
    Except ProvenanceError Str :=
  let contentTypes := scan_folder files
  if (lookupA contentTypes ("3sish".toList)).isSome then
    match lookupA contentTypes ("dita".toList), lookupA contentTypes ("3sish".toList) with
    | some ditas, some ishes =>
      if ditas.length ≠ ishes.length then
        .error (.inconsistent (symmDiffList ditas ishes))
      else .ok ("cheetah".toList)
    | none, _ => .error .keyErrorDita
    | some _, none => .error .keyErrorDita
  else .ok ("word".toList)

/-! ## `LocalProjectFile.__init__` and the header reader
(local.py lines 49-67 and 96-112) -/

/-- The on-disk content of one file, as the constructor sees it: its
Python-style line list (each line keeps its trailing newline, a last partial
line does not have one) and whether `etree.parse` accepts it. -/
structure RawFile where
  lines : List Str
  parsesOk : Bool
  deriving DecidableEq, Inhabited

/-- The ways `LocalProjectFile.__init__` ends. -/
inductive InitError
  | notFound
  | parseError
  | stopIteration
  deriving DecidableEq

/-- Result of constructing a `LocalProjectFile`: on success the captured
header, if any. -/
inductive InitResult
  | ok (header : Option Str)
  | err (e : InitError)
  deriving DecidableEq

/-- The literal XML declaration of the header regex
`(<\?xml version="1.0" encoding="UTF-8"\?>\n)`. -/
def declLit : Str := ("<?xml version=\"1.0\" encoding=\"UTF-8\"?>\n".toList)

/-- The literal opening of the optional doctype group `(<!DOCTYPE.*?>\n)?`. -/
def doctypeLit : Str := ("<!DOCTYPE".toList)

/-- Index of the first position holding `'>'` immediately followed by
`'\n'` (the end of the non-greedy `.*?>` followed by `\n`, under
`re.DOTALL`). -/
def findGtNl : Str → Option Nat
  | '>' :: '\n' :: _ => some 0
  | _ :: rest => (findGtNl rest).map (· + 1)
  | [] => none

/-- The optional doctype group: if the text starts with `<!DOCTYPE`, the
shortest prefix extending it to `>` followed by a newline. -/
def minimalDoctype (s : Str) : Option Str :=
  if doctypeLit.isPrefixOf s then
    match findGtNl (s.drop doctypeLit.length) with
    | some k => some (s.take (doctypeLit.length + k + 2))
    | none => none
  else none

/-- The source function `re.findall` of the header pattern: the first position where the literal
declaration matches, extended by the optional doctype group; the header is
the concatenation of the two groups. -/
def findHeader : Str → Option Str
  | [] => none
  | c :: rest =>
    if declLit.isPrefixOf (c :: rest) then
      some (declLit ++ (minimalDoctype ((c :: rest).drop declLit.length)).getD [])
    else findHeader rest

/-- The source function `get_xml_file_header`: reads the first four lines with `next(f)` — which
raises `StopIteration` when the file has fewer than four lines — and matches
the declaration pattern against their concatenation; no match is not an
error. -/
def get_xml_file_header (f : RawFile) : InitResult :=
  if f.lines.length < 4 then .err .stopIteration
  else
    match findHeader (f.lines.take 4).flatten with
    | some h => .ok (some h)
    | none => .ok none

/-- The source function `LocalProjectFile.__init__` over a folder state mapping paths to raw
files: `etree.parse` raises when the path is missing or the content does not
parse (re-raised by the constructor), then the header is read. -/
def localProjectFile_init (fs : List (Str × RawFile)) (path : Str) : InitResult :=
  match lookupA fs path with
  | none => .err .notFound
  | some f => if f.parsesOk = false then .err .parseError else get_xml_file_header f

/-! ## Topics, the map, and the rename pass
(local.py lines 276-303, 412-555, 655-679) -/

/-- Document types recognised by `rename_topics` (local.py line 22). -/
def doctypes : List Str := [("concept".toList), ("task".toList), ("reference".toList)]

/-- Modelled from the spec: `Constants.outputclasses` lives in constants.py,
which is missing from src/.  Only its first tuple component (the file-name
letter) is needed here; the letters are those of the `prefixes` dict at the
top of local.py and of spec §4.5
(explanation/legal → e_, reference → r_, hierarchical → c_, procedure → t_). -/
def outputclasses : List (Str × Str) :=
  [("explanation".toList, ("e_".toList)),
   ("referenceinformation".toList, ("r_".toList)),
   ("context".toList, ("c_".toList)),
   ("lpcontext".toList, ("c_".toList)),
   ("procedure".toList, ("t_".toList)),
   ("legalinformation".toList, ("e_".toList))]

/-- Python `s.replace('___', '_')`: left-to-right, non-overlapping, the
replacement is not rescanned. -/
def replace3u : Str → Str
  | '_' :: '_' :: '_' :: rest => '_' :: replace3u rest
  | c :: rest => c :: replace3u rest
  | [] => []

/-- Python `s.replace('__', '_')`. -/
def replace2u : Str → Str
  | '_' :: '_' :: rest => '_' :: replace2u rest
  | c :: rest => c :: replace2u rest
  | [] => []

/-- Python `s.replace('_the_', '_')`. -/
def replaceThe : Str → Str
  | '_' :: 't' :: 'h' :: 'e' :: '_' :: rest => '_' :: replaceThe rest
  | c :: rest => c :: replaceThe rest
  | [] => []

/-- The name `create_new_name` derives from a title before the degenerate-name
check: `re.sub(r'[\s\W]', '_', text)` (every non-word character becomes one
underscore), the three `replace` calls, then
`re.sub(r'\W+', '', ..., flags=re.ASCII)`. -/
def deriveTitleName (t : Str) : Str :=
  let s1 := t.map (fun c => if isWordChar c then c else '_')
  let s2 := replaceThe (replace2u (replace3u s1))
  s2.filter isWordChar

/-- One topic of the map, as the rename pass sees it: its current file name
(with extension), its extension, the title tag's text and the joined
`itertext` fallback, the root tag, the output classification, the local link
strings of its tree, and the paired sidecar (`.3sish`) file name under
cheetah provenance. -/
structure TopicSt where
  name : Str
  ext : Str
  titleText : Option Str
  titleItertext : Str
  rootTag : Str
  outputclass : Option Str
  links : List Str
  ishName : Option Str
  deriving DecidableEq, Inhabited

/-- Result of a pass step: `.indexError` is the uncaught `IndexError` that
`new_name[1]` raises when the name left after the trailing-underscore strip
has a single character. -/
inductive PassResult (α : Type)
  | ok (a : α)
  | indexError
  deriving DecidableEq

/-- Python `self.content.title_tag.text or ' '.join(...itertext())`:
the itertext fallback is used when the text is `None` or empty. -/
def actualTitleText (t : TopicSt) : Str :=
  match t.titleText with
  | some s => if s = [] then t.titleItertext else s
  | none => t.titleItertext

/-- The `if new_name.endswith('_'): new_name = new_name[:-1]` step of
`create_new_name`. -/
def stripTrailingUnderscore (s : Str) : Str :=
  if s.getLast? = some '_' then s.dropLast else s

/-- The file-name letter the topic's output classification selects, if any
(empty when the classification is absent or unknown). -/
def ocLetter (t : TopicSt) : Str :=
  (t.outputclass.bind (fun oc => lookupA outputclasses oc)).getD []

/-- The numeric suffix for a repeated title (`'_' + str(num_rep)` from the
second repetition on). -/
def repSuffix (numRep : Nat) : Str :=
  if numRep > 1 then '_' :: natToStr numRep else []

/-- The source function `LocalTopic.create_new_name(num_rep)` (local.py lines 490-515). -/
def create_new_name (t : TopicSt) (numRep : Nat) : PassResult Str :=
  let newName := deriveTitleName (actualTitleText t)
  if newName = ("Rev".toList) ∨ newName.length < 2 then .ok t.name
  else
    let n1 := stripTrailingUnderscore newName
    match n1.get? 1 with
    | none => .indexError
    | some c =>
      let n2 := if c = '_' then n1.drop 2 else n1
      let n3 := match t.outputclass.bind (fun oc => lookupA outputclasses oc) with
                | some p => p ++ n2
                | none => n2
      .ok (if numRep > 1 then n3 ++ '_' :: natToStr numRep else n3)

/-- Modelled from the spec: `XMLContent.title_missing` lives in mary_xml.py,
which is missing from src/; per the spec's problem list ("missing title") a
topic's title is missing when its title text is absent or empty. -/
def title_missing (t : TopicSt) : Bool :=
  match t.titleText with
  | none => true
  | some s => s.isEmpty

/-- Modelled from the spec: `add_legal_title_and_shortdesc` lives in
mary_xml.py, which is missing from src/, and the spec does not say which
title it writes; it is modelled as writing some fixed boilerplate title.
Theorems about the pass that depend on title text exclude legal-information
topics. -/
def legalTitle : Str := ("Legal information boilerplate".toList)

/-- The `LocalLegalInformationTopic.add_title_and_shortdesc` step at the top
of `update_name`. -/
def adjustLegal (t : TopicSt) : TopicSt :=
  if t.outputclass = some ("legalinformation".toList)
  then { t with titleText := some legalTitle } else t

/-- Modelled from the spec: `XMLContent.update_local_links(old, new)` lives in
mary_xml.py, which is missing from src/; per spec §6 and §8 it replaces every
local link equal to the old name by the new one. -/
def update_local_links (links : List Str) (old new : Str) : List Str :=
  links.map (fun l => if l = old then new else l)

/-- The source function `LocalMap.update_topicref(old, new)` (local.py lines 296-303): every
topicref whose href equals the old name is set to the new one (an equal
old/new pair is skipped with a log line). -/
def update_topicref (hrefs : List Str) (old new : Str) : List Str :=
  hrefs.map (fun h => if h = old then (if old = new then h else new) else h)

/-- The source function `LocalTopic.rename_path` on the folder state: the file is renamed via
`file_rename` unless the new path already exists (logged warning). -/
def rename_path (disk : List Str) (oldPath newFull : Str) : List Str :=
  if newFull ∈ disk then disk
  else (file_rename disk oldPath newFull).2

/-- The extension of a sidecar record file (`topic_path.replace('.dita',
'.3sish')`, local.py line 257). -/
def ishExt : Str := (".3sish".toList)

/-- The whole-map state the rename pass acts on: the topic objects, the map
tree's topicref hrefs, and the file names present in the project folder. -/
structure MapSt where
  topics : List TopicSt
  hrefs : List Str
  disk : List Str
  deriving DecidableEq, Inhabited

/-- The propagation stage of `update_name` (local.py lines 547-555), reached
once the skips are passed: set the topic's name, rename the file via
`rename_path`, update the local links of every topic of the map
(`update_local_links(old_name, new_name + '.dita')`), update the map's
topicrefs, and rename the sidecar record if present. -/
def update_name_apply (m1 : MapSt) (i : Nat) (t1 : TopicSt) (newName : Str) : MapSt :=
  let newFull := newName ++ t1.ext
  let disk2 := rename_path m1.disk t1.name newFull
  let topics2 := (m1.topics.set i { t1 with name := newFull }).map
    (fun t => { t with links := update_local_links t.links t1.name (newName ++ (".dita".toList)) })
  let hrefs2 := update_topicref m1.hrefs t1.name newFull
  match t1.ishName with
  | none => { topics := topics2, hrefs := hrefs2, disk := disk2 }
  | some oldIsh =>
    -- `self.ish = ...` acts on the topic object that already carries the new
    -- name and the updated links, so the final topic record is built directly
    { topics := topics2.set i
        { t1 with
          name := newFull
          links := update_local_links t1.links t1.name (newName ++ (".dita".toList))
          ishName := some (newName ++ ishExt) },
      hrefs := hrefs2,
      disk := (file_rename disk2 oldIsh (newName ++ ishExt)).2 }

/-- The source function `LocalTopic.update_name(num_rep)` (local.py lines 528-555) for the topic
at index `i`: the legal-information title fix-up, the missing-title and
unchanged-name skips, then the propagation stage. -/
def update_name (m : MapSt) (i : Nat) (numRep : Nat) : PassResult MapSt :=
  let t1 := adjustLegal (m.topics.getD i default)
  let m1 : MapSt := { m with topics := m.topics.set i t1 }
  if title_missing t1 then .ok m1
  else
    match create_new_name t1 numRep with
    | .indexError => .indexError
    | .ok newName =>
      if t1.name = newName then .ok m1
      else .ok (update_name_apply m1 i t1 newName)

/-- One `topic_title_repetitions[title] += 1` / `= 1` step of the repetition
dict, keyed -- like the Python dict -- by the possibly absent title text. -/
def bump (reps : List (Option Str × Nat)) (k : Option Str) : List (Option Str × Nat) :=
  match lookupA reps k with
  | some n => reps.map (fun p => if p.1 = k then (p.1, n + 1) else p)
  | none => reps ++ [(k, 1)]

/-- Reading `topic_title_repetitions[title]` after the bump. -/
def repsLookup (reps : List (Option Str × Nat)) (k : Option Str) : Nat :=
  (lookupA reps k).getD 0

/-- The loop body of `rename_topics` (local.py lines 276-294), iterating the
indices of the stable topic list; `fuel` is the number of topics left, which
equals `topics.length - i` at every call. -/
def rename_topics_go (m : MapSt) (reps : List (Option Str × Nat)) (counter i : Nat) :
    Nat → PassResult (MapSt × Nat)
  | 0 => .ok (m, counter)
  | fuel + 1 =>
    let t := m.topics.getD i default
    if t.rootTag ∈ doctypes then
      let reps' := bump reps t.titleText
      match update_name m i (repsLookup reps' t.titleText) with
      | .indexError => .indexError
      | .ok m' => rename_topics_go m' reps' (counter + 1) (i + 1) fuel
    else rename_topics_go m reps counter (i + 1) fuel

/-- The source function `LocalMap.rename_topics`: one pass over all topics, returning the final
state and the counter it returns. -/
def rename_topics (m : MapSt) : PassResult (MapSt × Nat) :=
  rename_topics_go m [] 0 0 m.topics.length

/-- Projection: the map of a successful pass (`default` is never reached in
the theorems below, which pin the result shape). -/
def passMap : PassResult (MapSt × Nat) → MapSt
  | .ok (m, _) => m
  | .indexError => default

/-- Projection: the counter of a successful pass. -/
def passCount : PassResult (MapSt × Nat) → Nat
  | .ok (_, c) => c
  | .indexError => 0

/-! ## Closed forms for the rename pass

The pass `rename_topics` is a left-to-right fold over the topic indices.  The
definitions below give, directly from the initial map state, the quantities
the pass computes at each step: whether step `k` touches its topic, the
repetition index and new name it derives, and the cumulative substitutions the
pass has applied to link strings and topicref hrefs after `k` steps.  The
theorems then show the pass reaches exactly these closed forms. -/

/-- The topic at index `i` (`default` when out of range, which the theorems
exclude). -/
def topicAt (m : MapSt) (i : Nat) : TopicSt := m.topics.getD i default

/-- Whether the pass processes index `i` at all (root tag among the
recognised document types). -/
def docAtB (m : MapSt) (i : Nat) : Bool := decide ((topicAt m i).rootTag ∈ doctypes)

/-- The repetition count of a title among the processed topics with index
below `j`. -/
def titleCountUpTo (m : MapSt) (j : Nat) (key : Option Str) : Nat :=
  (List.range j).countP (fun i => docAtB m i && decide ((topicAt m i).titleText = key))

/-- The 1-based repetition index `rename_topics` hands to `update_name` at
step `i`. -/
def repAt (m : MapSt) (i : Nat) : Nat :=
  titleCountUpTo m (i + 1) ((topicAt m i).titleText)

/-- The name `create_new_name` produces at step `i`. -/
def newNameAt (m : MapSt) (i : Nat) : PassResult Str :=
  create_new_name (adjustLegal (topicAt m i)) (repAt m i)

/-- The produced name as a string (`[]` in the `IndexError` case, which the
theorems exclude). -/
def newStrAt (m : MapSt) (i : Nat) : Str :=
  match newNameAt m i with
  | .ok s => s
  | .indexError => []

/-- The file name of topic `i` before the pass. -/
def oldAt (m : MapSt) (i : Nat) : Str := (topicAt m i).name

/-- Whether step `i` reaches the propagation stage: processed, title present,
and the derived name differs from the current file name. -/
def renamedAtB (m : MapSt) (i : Nat) : Bool :=
  docAtB m i && !(title_missing (adjustLegal (topicAt m i))) &&
  (match newNameAt m i with
   | .ok s => decide (¬ s = oldAt m i)
   | .indexError => false)

/-- The full new file name (with extension) step `i` assigns. -/
def newFullAt (m : MapSt) (i : Nat) : Str := newStrAt m i ++ (topicAt m i).ext

/-- The string step `i` writes into local links (`new_name + '.dita'`,
local.py line 551). -/
def newLinkAt (m : MapSt) (i : Nat) : Str := newStrAt m i ++ (".dita".toList)

/-- Replace one string by another, leaving everything else alone. -/
def stepSubst (old new l : Str) : Str := if l = old then new else l

/-- The substitution the first `k` steps of the pass apply to every local
link string. -/
def linkSubstUpTo (m : MapSt) : Nat → Str → Str
  | 0, l => l
  | k + 1, l =>
    if renamedAtB m k then stepSubst (oldAt m k) (newLinkAt m k) (linkSubstUpTo m k l)
    else linkSubstUpTo m k l

/-- The substitution the first `k` steps of the pass apply to every topicref
href of the map tree. -/
def hrefSubstUpTo (m : MapSt) : Nat → Str → Str
  | 0, l => l
  | k + 1, l =>
    if renamedAtB m k then stepSubst (oldAt m k) (newFullAt m k) (hrefSubstUpTo m k l)
    else hrefSubstUpTo m k l

/-- The state of topic `i` after the first `k` steps of the pass. -/
def topicAtStage (m : MapSt) (k i : Nat) : TopicSt :=
  let t := topicAt m i
  { t with
    titleText := if i < k ∧ docAtB m i = true then (adjustLegal t).titleText else t.titleText,
    name := if i < k ∧ renamedAtB m i = true then newFullAt m i else t.name,
    links := t.links.map (linkSubstUpTo m k),
    ishName := if i < k ∧ renamedAtB m i = true ∧ t.ishName ≠ none
               then some (newStrAt m i ++ ishExt) else t.ishName }

/-- The folder state after the first `k` steps of the pass. -/
def diskAt (m : MapSt) : Nat → List Str
  | 0 => m.disk
  | k + 1 =>
    if renamedAtB m k then
      let d1 := rename_path (diskAt m k) (oldAt m k) (newFullAt m k)
      match (topicAt m k).ishName with
      | some oldIsh => (file_rename d1 oldIsh (newStrAt m k ++ ishExt)).2
      | none => d1
    else diskAt m k

/-- The repetition dict after the first `k` steps of the pass. -/
def repsAt (m : MapSt) : Nat → List (Option Str × Nat)
  | 0 => []
  | k + 1 =>
    if docAtB m k then bump (repsAt m k) ((topicAt m k).titleText) else repsAt m k

/-- The counter after the first `k` steps of the pass. -/
def counterAt (m : MapSt) : Nat → Nat
  | 0 => 0
  | k + 1 => if docAtB m k then counterAt m k + 1 else counterAt m k

/-- The whole map state after the first `k` steps of the pass. -/
def stateAt (m : MapSt) (k : Nat) : MapSt :=
  { topics := (List.range m.topics.length).map (topicAtStage m k),
    hrefs := m.hrefs.map (hrefSubstUpTo m k),
    disk := diskAt m k }

/-- The number of topics with a recognised document root tag from index `i`
on, over `fuel` indices. -/
def docCountFrom (ts : List TopicSt) (i : Nat) : Nat → Nat
  | 0 => 0
  | fuel + 1 =>
    (if (ts.getD i default).rootTag ∈ doctypes then 1 else 0) + docCountFrom ts (i + 1) fuel

/-! ## Concrete fixtures used by the claim theorems -/

/-- A topic fixture with a `.dita` extension and no itertext fallback. -/
def mkTopic (name title root oc : Str) (links : List Str) (ish : Option Str) : TopicSt :=
  { name := name, ext := (".dita".toList), titleText := some title,
    titleItertext := [], rootTag := root, outputclass := some oc,
    links := links, ishName := ish }

/-- The map of spec §8's duplicate-title end-to-end example: a hierarchical
topic and a task topic both titled "Revision history". -/
def c3map : MapSt :=
  { topics := [mkTopic ("a.dita".toList) ("Revision history".toList) ("concept".toList) ("context".toList) [] none,
               mkTopic ("b.dita".toList) ("Revision history".toList) ("task".toList) ("procedure".toList) [] none],
    hrefs := [("a.dita".toList), ("b.dita".toList)],
    disk := [("a.dita".toList), ("b.dita".toList)] }

/-- The C1 counterexample map: the second topic's pre-pass file name
`t_Install.dita` equals the name the pass assigns to the first topic. -/
def cexMap : MapSt :=
  { topics := [mkTopic ("a.dita".toList) ("Install".toList) ("task".toList) ("procedure".toList) [] none,
               mkTopic ("t_Install.dita".toList) ("Setup".toList) ("task".toList) ("procedure".toList)
                 [("a.dita".toList)] none],
    hrefs := [("a.dita".toList), ("t_Install.dita".toList)],
    disk := [("a.dita".toList), ("t_Install.dita".toList)] }

/-- The C1 witness map: two task topics with distinct, non-interfering names,
the first carrying a sidecar record and the second a link to the first. -/
def c1wMap : MapSt :=
  { topics := [mkTopic ("a.dita".toList) ("Install".toList) ("task".toList) ("procedure".toList) []
                 (some ("a.3sish".toList)),
               mkTopic ("b.dita".toList) ("Setup".toList) ("task".toList) ("procedure".toList)
                 [("a.dita".toList)] none],
    hrefs := [("a.dita".toList), ("b.dita".toList)],
    disk := [("a.dita".toList), ("a.3sish".toList), ("b.dita".toList)] }

/-- The C10 witness map: a task topic whose rename is skipped (placeholder
title "Rev"), a task topic that is renamed, and a non-document topic. -/
def c10map : MapSt :=
  { topics := [mkTopic ("a.dita".toList) ("Rev".toList) ("task".toList) ("procedure".toList) [] none,
               mkTopic ("b.dita".toList) ("Install".toList) ("task".toList) ("procedure".toList) [] none,
               mkTopic ("c.dita".toList) ("Overview".toList) ("topic".toList) ("explanation".toList) [] none],
    hrefs := [("a.dita".toList), ("b.dita".toList), ("c.dita".toList)],
    disk := [("a.dita".toList), ("b.dita".toList), ("c.dita".toList)] }

/-- The C7 witness topic: title "A Guide" derives `A_Guide`, whose second
character is an underscore. -/
def c7topic : TopicSt :=
  mkTopic ("x.dita".toList) ("A Guide".toList) ("task".toList) ("procedure".toList) [] none

/-- The C8 fixture folder: a file that does not parse, a parseable single-line
file, a parseable four-line file with declaration and doctype, and a
parseable four-line file without a declaration. -/
def c8fs : List (Str × RawFile) :=
  [("bad.dita".toList, { lines := [("<topic>".toList)], parsesOk := false }),
   ("short.dita".toList, { lines := [("<topic/>".toList)], parsesOk := true }),
   ("good.dita".toList,
    { lines := [("<?xml version=\"1.0\" encoding=\"UTF-8\"?>\n".toList),
                ("<!DOCTYPE topic SYSTEM \"topic.dtd\">\n".toList),
                ("<topic>\n".toList), ("</topic>\n".toList)], parsesOk := true }),
   ("plain.dita".toList,
    { lines := [("<topic>\n".toList), ("<title>t</title>\n".toList),
                ("<body/>\n".toList), ("</topic>\n".toList)], parsesOk := true })]

/-! ## `edit_image_names` (local.py lines 338-381, 439-462, 682-696) -/

/-- One map image: its href, the title the discovery pass copied from the
first figure title that labels it, and the `temp_title` written by
`edit_image_names`. -/
structure ImageSt where
  href : Str
  title : Option Str
  tempTitle : Option Str
  deriving DecidableEq, Inhabited

/-- One topic as `edit_image_names` sees it: its file name, the href
attributes of the `image` tags in its tree, and its `images` association
(indices into the map's image list, the identity-based sharing of the Python
`Image` objects). -/
structure ImgTopic where
  name : Str
  imageRefs : List Str
  images : List Nat
  deriving DecidableEq, Inhabited

/-- The map state `edit_image_names` acts on. -/
structure ImgMap where
  folder : Str
  imageFolder : Str
  images : List ImageSt
  topics : List ImgTopic
  disk : List Str
  deriving DecidableEq

/-- The source function `os.path.join(folder, name)` for the plain folder names used here. -/
def pathJoin (folder name : Str) : Str := folder ++ '/' :: name

/-- The source function `os.path.basename`. -/
def baseName (p : Str) : Str := (splitOnChar '/' p).getLastD []

/-- The source function `titles[title] += 1` on the title-repetition dict. -/
def bumpTitle (titles : List (Str × Nat)) (k : Str) : List (Str × Nat) :=
  titles.map (fun p => if p.1 = k then (p.1, p.2 + 1) else p)

/-- The source function `image_uses_in_topic.setdefault(image, []).append(topic)`. -/
def usesAppend (uses : List (Nat × List Nat)) (ii ti : Nat) : List (Nat × List Nat) :=
  match lookupA uses ii with
  | some _ => uses.map (fun p => if p.1 = ii then (p.1, p.2 ++ [ti]) else p)
  | none => uses ++ [(ii, [ti])]

/-- The body of the first loop of `edit_image_names`, for one `(topic, image)`
visit: skip untitled images, otherwise count the title repetition and set the
image's `temp_title` (appending `' ' + str(count)` from the second count on),
then record the topic against the image. -/
def visitImage (st : List ImageSt × List (Str × Nat) × List (Nat × List Nat))
    (ti ii : Nat) : List ImageSt × List (Str × Nat) × List (Nat × List Nat) :=
  let (imgs, titles, uses) := st
  let img := imgs.getD ii default
  let (imgs', titles') :=
    match img.title with
    | none => (imgs, titles)
    | some ttl =>
      if ttl = [] then (imgs, titles)
      else
        match lookupA titles ttl with
        | some n =>
          (imgs.set ii { img with tempTitle := some (ttl ++ ' ' :: natToStr (n + 1)) },
           bumpTitle titles ttl)
        | none =>
          (imgs.set ii { img with tempTitle := some ttl }, titles ++ [(ttl, 1)])
  (imgs', titles', usesAppend uses ii ti)

/-- The first loop of `edit_image_names`: every topic in map order, every
image of the topic's image set. -/
def collectImageUses (m : ImgMap) :
    List ImageSt × List (Str × Nat) × List (Nat × List Nat) :=
  (List.range m.topics.length).foldl
    (fun st ti => (m.topics.getD ti default).images.foldl (fun st ii => visitImage st ti ii) st)
    (m.images, [], [])

/-- The body of the second loop of `edit_image_names`, for one image and the
topics that use it: generate the new name, skip when source equals target,
when the source file is gone or when the target exists, otherwise rename the
asset and rewrite the matching `image` hrefs of every using topic. -/
def renameOneImage (folder imageFolder : Str) (imgs : List ImageSt) ( pfx : Str)
    (st : List ImgTopic × List Str) (entry : Nat × List Nat) : List ImgTopic × List Str :=
  let (tops, disk) := st
  let img := imgs.getD entry.1 default
  let newName := Image.generate_name img.tempTitle img.href pfx
  let currentPath := pathJoin folder img.href
  let newPath := pathJoin imageFolder newName
  if currentPath = newPath then st
  else if currentPath ∉ disk then st
  else if newPath ∈ disk then st
  else
    let disk' := (file_rename disk currentPath newPath).2
    let newHref := if imageFolder ≠ folder then baseName imageFolder ++ '/' :: newName else newName
    let tops' := entry.2.foldl
      (fun ts ti =>
        let t := ts.getD ti default
        ts.set ti { t with imageRefs := t.imageRefs.map (fun h => if h = img.href then newHref else h) })
      tops
    (tops', disk')

/-- The source function `LocalMap.edit_image_names(image_prefix)` (local.py lines 338-381). -/
def edit_image_names (m : ImgMap) ( pfx : Str) : ImgMap :=
  let (imgs, _, uses) := collectImageUses m
  let (tops, disk) := uses.foldl (renameOneImage m.folder m.imageFolder imgs pfx) (m.topics, m.disk)
  { m with images := imgs, topics := tops, disk := disk }

/-- The C4 scenario of spec §8: one image `fig1.png`, referenced by two
topics and titled "Overview" by exactly one of them. -/
def c4map : ImgMap :=
  { folder := ("F".toList), imageFolder := ("F".toList),
    images := [{ href := ("fig1.png".toList), title := some ("Overview".toList), tempTitle := none }],
    topics := [{ name := ("t1.dita".toList), imageRefs := [("fig1.png".toList)], images := [0] },
               { name := ("t2.dita".toList), imageRefs := [("fig1.png".toList)], images := [0] }],
    disk := [("F/fig1.png".toList)] }

/-! # Theorems -/

/-! ## Auxiliary list lemmas -/

theorem splitOnChar_ne_nil (sep : Char) (l : Str) : splitOnChar sep l ≠ [] := by
  cases l with
  | nil => simp [splitOnChar]
  | cons c cs =>
    unfold splitOnChar
    cases h : splitOnChar sep cs with
    | nil => simp
    | cons p ps => dsimp; split <;> simp

theorem joinWith_cons (sep : Str) (c : Char) (p : Str) (ps : List Str) :
    joinWith sep ((c :: p) :: ps) = c :: joinWith sep (p :: ps) := by
  cases ps <;> simp [joinWith]

theorem joinWith_split_space :
    ∀ t : Str, joinWith ['_'] (splitOnChar ' ' t) = t.map (fun c => if c = ' ' then '_' else c)
  | [] => rfl
  | c :: cs => by
    have ih := joinWith_split_space cs
    unfold splitOnChar
    cases h : splitOnChar ' ' cs with
    | nil => exact absurd h (splitOnChar_ne_nil ' ' cs)
    | cons p ps =>
      rw [h] at ih
      dsimp only
      by_cases hc : c = ' '
      · subst hc
        rw [if_pos rfl]
        show joinWith ['_'] ([] :: p :: ps) = _
        simpa [joinWith] using ih
      · rw [if_neg hc, joinWith_cons, ih]
        simp [hc]

/-! ## C5: casting to the current type is idempotent -/

/-- C5: casting a topic tree twice to the same target variant yields the same
tree as casting once; the second cast changes nothing in the tree. -/
theorem claim_C5 (tag oc : Str) (t : CastTree) :
    cast_to tag oc (cast_to tag oc t) = cast_to tag oc t := rfl

/-! ## C9: `file_rename` never reaches the raise branch -/

/-- C9: for every folder state and every pair of paths, `file_rename` never
raises `FileExistsError`: the `old == new` branch is unreachable because such
a call already returned at one of the two existence checks. -/
theorem claim_C9 (disk : List Str) (oldPath newPath : Str) :
    (file_rename disk oldPath newPath).1 ≠ RenameOutcome.raisedFileExists := by
  unfold file_rename
  split_ifs with h1 h2 h3 <;> simp_all

/-! ## C6: `generate_name` is a pure function of title, href and prefix -/

/-- C6 counterexample: the claim's sanitisation ("the href's last path segment
minus its extension", and "whitespace turned into underscores") predicts
`img_p_my-fig.png` for an untitled `a/my-fig.png` and `img_p_a_b.png` for a
title containing a tab, but the code strips the hyphen and the tab. -/
theorem claim_C6_counterexample :
    Image.generate_name none ("a/my-fig.png".toList) ("p".toList) = ("img_p_myfig.png".toList)
    ∧ ("img_p_myfig.png".toList) ≠ ("img_p_my-fig.png".toList)
    ∧ Image.generate_name (some ['a', '\t', 'b']) ("f.png".toList) ("p".toList) = ("img_p_ab.png".toList)
    ∧ ("img_p_ab.png".toList) ≠ ("img_p_a_b.png".toList) :=
  ⟨rfl, by decide, rfl, by decide⟩

/-- C6 (amended): `generate_name` is a pure function of the disambiguated
title, the href and the prefix, equal to
`"img_" + prefix + "_" + sanitized + extension`, where `sanitized` turns
space characters of the title into underscores and strips non-word
characters — also from the href-derived fallback name. -/
theorem claim_C6 (tempTitle : Option Str) (href pfx : Str) :
    Image.generate_name tempTitle href pfx =
      ("img_".toList) ++ pfx ++ '_' :: sanitizedSpec tempTitle href
        ++ '.' :: ((rsplitDotAux href).map Prod.snd).getD [] := by
  cases tempTitle with
  | none => rfl
  | some t =>
    show ("img_".toList) ++ pfx
        ++ '_' :: (joinWith ['_'] (splitOnChar ' ' t)).filter isWordChar
        ++ '.' :: ((rsplitDotAux href).map Prod.snd).getD [] = _
    rw [joinWith_split_space]
    rfl

/-! ## C2: provenance detection -/

/-- C2 counterexample: a folder whose document group and sidecar group have
equal sizes but different base-name sets (`{a.dita, b.3sish}`) is accepted as
a cheetah project instead of failing with the inconsistency report — the
source compares group lengths, not base-name sets. -/
theorem claim_C2_counterexample :
    check_project_folder_content [("a.dita".toList), ("b.3sish".toList)] = .ok ("cheetah".toList)
    ∧ lookupA (scan_folder [("a.dita".toList), ("b.3sish".toList)]) ("dita".toList) = some [("a".toList)]
    ∧ lookupA (scan_folder [("a.dita".toList), ("b.3sish".toList)]) ("3sish".toList) = some [("b".toList)]
    ∧ ("a".toList : Str) ≠ ("b".toList) :=
  ⟨rfl, rfl, rfl, by decide⟩

/-- C2 (amended): provenance is cheetah exactly when a `3sish` group exists;
with both groups present, the pass fails with the inconsistency report
listing the symmetric difference whenever the two groups differ in *count*
(equal-count mismatched sets are accepted). -/
theorem claim_C2 (files : List Str) :
    (lookupA (scan_folder files) ("3sish".toList) = none →
       check_project_folder_content files = .ok ("word".toList))
    ∧ ∀ ditas ishes,
        lookupA (scan_folder files) ("dita".toList) = some ditas →
        lookupA (scan_folder files) ("3sish".toList) = some ishes →
        (ditas.length = ishes.length →
           check_project_folder_content files = .ok ("cheetah".toList))
        ∧ (ditas.length ≠ ishes.length →
           check_project_folder_content files =
             .error (.inconsistent (symmDiffList ditas ishes))) := by
  refine ⟨fun h => ?_, fun ditas ishes hd hs => ⟨fun hlen => ?_, fun hlen => ?_⟩⟩
  · simp only [check_project_folder_content]
    rw [h]
    rfl
  · simp only [check_project_folder_content]
    rw [hs, hd]
    simp [hlen]
  · simp only [check_project_folder_content]
    rw [hs, hd]
    simp [hlen]

/-- C2 witness: the spec's own example folder `{a.dita, a.3sish, b.dita}`
fails with the inconsistency report listing exactly the orphaned base name
`b`. -/
theorem claim_C2_witness :
    check_project_folder_content [("a.dita".toList), ("a.3sish".toList), ("b.dita".toList)] =
      .error (.inconsistent (symmDiffList [("a".toList), ("b".toList)] [("a".toList)])) :=
  ((claim_C2 [("a.dita".toList), ("a.3sish".toList), ("b.dita".toList)]).2
    [("a".toList), ("b".toList)] [("a".toList)] rfl rfl).2 (by decide)

/-! ## C8: `LocalProjectFile` construction -/

/-- C8: construction fails as specified on a missing path and on unparseable
content, and captures the declaration-plus-doctype header (or records its
absence) on four-line files — but on a parseable *single-line* file the
header reader's `next(f)` loop raises `StopIteration` instead of succeeding
with "no header", contradicting the claim. -/
theorem claim_C8 :
    localProjectFile_init c8fs ("missing.dita".toList) = .err .notFound
    ∧ localProjectFile_init c8fs ("bad.dita".toList) = .err .parseError
    ∧ localProjectFile_init c8fs ("good.dita".toList) =
        .ok (some ("<?xml version=\"1.0\" encoding=\"UTF-8\"?>\n<!DOCTYPE topic SYSTEM \"topic.dtd\">\n".toList))
    ∧ localProjectFile_init c8fs ("plain.dita".toList) = .ok none
    ∧ localProjectFile_init c8fs ("short.dita".toList) = .err .stopIteration :=
  ⟨rfl, rfl, rfl, rfl, rfl⟩

/-! ## C3: duplicate-title rename, end to end -/

/-- C3: on a map holding a hierarchical topic and a task topic both titled
"Revision history", `rename_topics` renames the files to
`c_Revision_history.dita` and `t_Revision_history_2.dita` (first occurrence
unsuffixed, second suffixed with its 1-based repetition index) and updates
both topicref hrefs of the map accordingly. -/
theorem claim_C3 :
    rename_topics c3map ≠ .indexError
    ∧ passCount (rename_topics c3map) = 2
    ∧ (passMap (rename_topics c3map)).topics.map (fun t => t.name) =
        [("c_Revision_history.dita".toList), ("t_Revision_history_2.dita".toList)]
    ∧ (passMap (rename_topics c3map)).hrefs =
        [("c_Revision_history.dita".toList), ("t_Revision_history_2.dita".toList)]
    ∧ (passMap (rename_topics c3map)).disk =
        [("c_Revision_history.dita".toList), ("t_Revision_history_2.dita".toList)] :=
  ⟨by decide, rfl, rfl, rfl, rfl⟩

/-! ## C4: image rename with one image used by two topics -/

/-- C4: on spec §8's scenario — `fig1.png` referenced by two topics and
titled "Overview" in exactly one — the code renames the asset to
`img_proj_Overview_2.png`, not the claimed `img_proj_Overview.png`: the
first loop of `edit_image_names` counts the title once per referencing
topic, so the single image's temp title becomes "Overview 2".  Both
referencing topics are indeed rewritten, to the suffixed name. -/
theorem claim_C4 :
    (edit_image_names c4map ("proj".toList)).disk = [("F/img_proj_Overview_2.png".toList)]
    ∧ (edit_image_names c4map ("proj".toList)).topics.map (fun t => t.imageRefs) =
        [[("img_proj_Overview_2.png".toList)], [("img_proj_Overview_2.png".toList)]]
    ∧ (edit_image_names c4map ("proj".toList)).images.map (fun i => i.tempTitle) =
        [some ("Overview 2".toList)]
    ∧ ("img_proj_Overview_2.png".toList) ≠ ("img_proj_Overview.png".toList) :=
  ⟨rfl, rfl, rfl, by decide⟩

/-! ## C10: the pass counter counts document-typed topics -/

theorem adjustLegal_rootTag (t : TopicSt) : (adjustLegal t).rootTag = t.rootTag := by
  unfold adjustLegal; split <;> rfl

theorem default_rootTag : (default : TopicSt).rootTag = [] := rfl

theorem rootTag_getD (ts : List TopicSt) (i : Nat) :
    (ts.getD i default).rootTag = (ts.map (fun t => t.rootTag)).getD i [] := by
  rw [List.getD_eq_getElem?_getD, List.getD_eq_getElem?_getD, List.getElem?_map]
  cases h : ts[i]? <;> simp [h, default_rootTag]

theorem map_set_self {α β : Type} [Inhabited α] (f : α → β) (l : List α) (i : Nat) (a : α)
    (h : f a = f (l.getD i default)) : (l.set i a).map f = l.map f := by
  apply List.ext_getElem?
  intro n
  rw [List.getElem?_map, List.getElem?_map, List.getElem?_set]
  by_cases hin : i = n
  · subst hin
    by_cases hlen : i < l.length
    · rw [if_pos rfl, if_pos hlen, List.getElem?_eq_getElem hlen]
      rw [List.getD_eq_getElem l default hlen] at h
      simp [h]
    · rw [if_pos rfl, if_neg hlen, List.getElem?_eq_none (Nat.le_of_not_lt hlen)]
  · rw [if_neg hin]

theorem getD_default_of_le {α : Type} [Inhabited α] (l : List α) (i : Nat)
    (h : l.length ≤ i) : l.getD i default = default := by
  rw [List.getD_eq_getElem?_getD, List.getElem?_eq_none h]
  rfl

theorem set_getD_self {α : Type} [Inhabited α] (l : List α) (i : Nat) (a : α) :
    (l.set i a).getD i default = if i < l.length then a else default := by
  rw [List.getD_eq_getElem?_getD, List.getElem?_set, if_pos rfl]
  split <;> rfl

theorem update_name_apply_rootTags (m1 : MapSt) (i : Nat) (t1 : TopicSt) (newName : Str)
    (ht : t1.rootTag = (m1.topics.getD i default).rootTag) :
    (update_name_apply m1 i t1 newName).topics.map (fun t => t.rootTag) =
      m1.topics.map (fun t => t.rootTag) := by
  have htop : ∀ l : List TopicSt,
      (l.map (fun t =>
        { t with links := update_local_links t.links t1.name (newName ++ (".dita".toList)) })).map
          (fun t => t.rootTag) = l.map (fun t => t.rootTag) := by
    intro l
    rw [List.map_map]
    exact List.map_congr_left (fun a _ => rfl)
  have h2 : ((m1.topics.set i { t1 with name := newName ++ t1.ext }).map
      (fun t =>
        { t with links := update_local_links t.links t1.name (newName ++ (".dita".toList)) })).map
        (fun t => t.rootTag) = m1.topics.map (fun t => t.rootTag) := by
    rw [htop]
    apply map_set_self
    exact ht
  obtain ⟨nm, ex, tt, tit, rt, oc, lk, ish⟩ := t1
  cases ish with
  | none =>
    simp only [update_name_apply]
    exact h2
  | some oldIsh =>
    simp only [update_name_apply]
    refine (map_set_self _ _ _ _ ?_).trans h2
    rw [rootTag_getD, h2, ← rootTag_getD]
    exact ht

theorem update_name_rootTags (m : MapSt) (i numRep : Nat) (m' : MapSt)
    (h : update_name m i numRep = .ok m') :
    m'.topics.map (fun t => t.rootTag) = m.topics.map (fun t => t.rootTag) := by
  have hset : (m.topics.set i (adjustLegal (m.topics.getD i default))).map (fun t => t.rootTag)
      = m.topics.map (fun t => t.rootTag) :=
    map_set_self _ _ _ _ (adjustLegal_rootTag _)
  have hget : (adjustLegal (m.topics.getD i default)).rootTag
      = ((m.topics.set i (adjustLegal (m.topics.getD i default))).getD i default).rootTag := by
    rw [set_getD_self]
    by_cases hlen : i < m.topics.length
    · rw [if_pos hlen]
    · rw [if_neg hlen, getD_default_of_le m.topics i (Nat.le_of_not_lt hlen)]
      exact adjustLegal_rootTag _
  simp only [update_name] at h
  split at h
  · cases h
    exact hset
  · cases hcn : create_new_name (adjustLegal (m.topics.getD i default)) numRep with
    | indexError =>
      rw [hcn] at h
      dsimp only at h
      cases h
    | ok s =>
      rw [hcn] at h
      dsimp only at h
      by_cases hnm : (adjustLegal (m.topics.getD i default)).name = s
      · rw [if_pos hnm] at h
        cases h
        exact hset
      · rw [if_neg hnm] at h
        cases h
        rw [update_name_apply_rootTags _ _ _ _ hget]
        exact hset

theorem docCountFrom_congr (ts ts' : List TopicSt)
    (h : ts.map (fun t => t.rootTag) = ts'.map (fun t => t.rootTag)) :
    ∀ fuel i, docCountFrom ts i fuel = docCountFrom ts' i fuel := by
  intro fuel
  induction fuel with
  | zero => intro i; rfl
  | succ f ih =>
    intro i
    have heq : (ts.getD i default).rootTag = (ts'.getD i default).rootTag := by
      rw [rootTag_getD, h, ← rootTag_getD]
    simp only [docCountFrom, heq, ih]

theorem docCountFrom_cons (t : TopicSt) (ts : List TopicSt) :
    ∀ fuel i, docCountFrom (t :: ts) (i + 1) fuel = docCountFrom ts i fuel := by
  intro fuel
  induction fuel with
  | zero => intro i; rfl
  | succ f ih => intro i; simp only [docCountFrom, List.getD_cons_succ, ih]

theorem docCountFrom_eq_countP (ts : List TopicSt) :
    docCountFrom ts 0 ts.length = ts.countP (fun t => decide (t.rootTag ∈ doctypes)) := by
  induction ts with
  | nil => rfl
  | cons t ts ih =>
    simp only [List.length_cons, docCountFrom, docCountFrom_cons, ih, List.countP_cons,
      List.getD_cons_zero]
    by_cases hd : t.rootTag ∈ doctypes
    · simp [hd]
      omega
    · simp [hd]

theorem rename_topics_go_count :
    ∀ (fuel : Nat) (m : MapSt) (reps : List (Option Str × Nat)) (counter i : Nat)
      (r : MapSt) (c : Nat),
      rename_topics_go m reps counter i fuel = .ok (r, c) →
      c = counter + docCountFrom m.topics i fuel := by
  intro fuel
  induction fuel with
  | zero =>
    intro m reps counter i r c h
    injection h with h'
    injection h' with h1 h2
    subst h2
    simp [docCountFrom]
  | succ f ih =>
    intro m reps counter i r c h
    simp only [rename_topics_go] at h
    by_cases hd : (m.topics.getD i default).rootTag ∈ doctypes
    · rw [if_pos hd] at h
      cases hu : update_name m i
          (repsLookup (bump reps (m.topics.getD i default).titleText)
            (m.topics.getD i default).titleText) with
      | indexError => rw [hu] at h; cases h
      | ok m' =>
        rw [hu] at h
        have hc := ih m' _ (counter + 1) (i + 1) r c h
        rw [docCountFrom_congr m'.topics m.topics (update_name_rootTags _ _ _ _ hu)] at hc
        simp only [docCountFrom, if_pos hd]
        omega
    · rw [if_neg hd] at h
      have hc := ih m reps counter (i + 1) r c h
      simp only [docCountFrom, if_neg hd]
      omega

/-- C10: whenever `rename_topics` returns, the integer it returns is the
number of topics whose root tag is `concept`, `task` or `reference` — the
counter is incremented for processed topics whether or not their file was
actually renamed. -/
theorem claim_C10 (m : MapSt) (r : MapSt) (c : Nat)
    (h : rename_topics m = .ok (r, c)) :
    c = m.topics.countP (fun t => decide (t.rootTag ∈ doctypes)) := by
  have hc := rename_topics_go_count m.topics.length m [] 0 0 r c h
  rw [docCountFrom_eq_countP] at hc
  simpa using hc

/-- C10 witness: on a map with a skipped task topic (placeholder title
"Rev"), a renamed task topic, and a non-document topic, the returned counter
is the document-topic count (2), not the number of files renamed (1). -/
theorem claim_C10_witness :
    passCount (rename_topics c10map) =
      c10map.topics.countP (fun t => decide (t.rootTag ∈ doctypes)) :=
  claim_C10 c10map (passMap (rename_topics c10map)) (passCount (rename_topics c10map)) rfl

/-! ## C1: rename propagation — basic lemmas -/

theorem adjustLegal_name (t : TopicSt) : (adjustLegal t).name = t.name := by
  unfold adjustLegal; split <;> rfl

theorem adjustLegal_ext (t : TopicSt) : (adjustLegal t).ext = t.ext := by
  unfold adjustLegal; split <;> rfl

theorem adjustLegal_links (t : TopicSt) : (adjustLegal t).links = t.links := by
  unfold adjustLegal; split <;> rfl

theorem adjustLegal_outputclass (t : TopicSt) : (adjustLegal t).outputclass = t.outputclass := by
  unfold adjustLegal; split <;> rfl

theorem adjustLegal_titleItertext (t : TopicSt) : (adjustLegal t).titleItertext = t.titleItertext := by
  unfold adjustLegal; split <;> rfl

theorem adjustLegal_ishName (t : TopicSt) : (adjustLegal t).ishName = t.ishName := by
  unfold adjustLegal; split <;> rfl

theorem topicAtStage_rootTag (m : MapSt) (k i : Nat) :
    (topicAtStage m k i).rootTag = (topicAt m i).rootTag := rfl

theorem topicAtStage_ext (m : MapSt) (k i : Nat) :
    (topicAtStage m k i).ext = (topicAt m i).ext := rfl

theorem topicAtStage_outputclass (m : MapSt) (k i : Nat) :
    (topicAtStage m k i).outputclass = (topicAt m i).outputclass := rfl

theorem topicAtStage_titleItertext (m : MapSt) (k i : Nat) :
    (topicAtStage m k i).titleItertext = (topicAt m i).titleItertext := rfl

theorem topicAtStage_links (m : MapSt) (k i : Nat) :
    (topicAtStage m k i).links = (topicAt m i).links.map (linkSubstUpTo m k) := rfl

theorem topicAtStage_name_self (m : MapSt) (k : Nat) :
    (topicAtStage m k k).name = oldAt m k := by
  unfold topicAtStage oldAt
  simp [Nat.lt_irrefl]

theorem topicAtStage_titleText_self (m : MapSt) (k : Nat) :
    (topicAtStage m k k).titleText = (topicAt m k).titleText := by
  unfold topicAtStage
  simp [Nat.lt_irrefl]

theorem topicAtStage_ishName_self (m : MapSt) (k : Nat) :
    (topicAtStage m k k).ishName = (topicAt m k).ishName := by
  unfold topicAtStage
  simp [Nat.lt_irrefl]

theorem adjustLegal_titleText_stage (m : MapSt) (k : Nat) :
    (adjustLegal (topicAtStage m k k)).titleText = (adjustLegal (topicAt m k)).titleText := by
  unfold adjustLegal
  by_cases hleg : (topicAt m k).outputclass = some ("legalinformation".toList)
  · rw [if_pos (by rw [topicAtStage_outputclass]; exact hleg), if_pos hleg]
  · rw [if_neg (by rw [topicAtStage_outputclass]; exact hleg), if_neg hleg]
    exact topicAtStage_titleText_self m k

theorem create_new_name_congr (t t' : TopicSt) (hn : t.name = t'.name)
    (ht : t.titleText = t'.titleText) (hi : t.titleItertext = t'.titleItertext)
    (ho : t.outputclass = t'.outputclass) (r : Nat) :
    create_new_name t r = create_new_name t' r := by
  unfold create_new_name actualTitleText
  rw [hn, ht, hi, ho]

theorem create_new_name_stage (m : MapSt) (k r : Nat) :
    create_new_name (adjustLegal (topicAtStage m k k)) r
      = create_new_name (adjustLegal (topicAt m k)) r := by
  apply create_new_name_congr
  · rw [adjustLegal_name, adjustLegal_name, topicAtStage_name_self]
    rfl
  · exact adjustLegal_titleText_stage m k
  · rw [adjustLegal_titleItertext, adjustLegal_titleItertext, topicAtStage_titleItertext]
  · rw [adjustLegal_outputclass, adjustLegal_outputclass, topicAtStage_outputclass]

theorem title_missing_stage (m : MapSt) (k : Nat) :
    title_missing (adjustLegal (topicAtStage m k k))
      = title_missing (adjustLegal (topicAt m k)) := by
  unfold title_missing
  rw [adjustLegal_titleText_stage]

theorem newStrAt_eq (m : MapSt) (k : Nat) (s : Str) (h : newNameAt m k = .ok s) :
    newStrAt m k = s := by
  unfold newStrAt
  rw [h]

theorem renamedAtB_false_of_missing (m : MapSt) (k : Nat)
    (h : title_missing (adjustLegal (topicAt m k)) = true) : renamedAtB m k = false := by
  unfold renamedAtB
  rw [h]
  simp

theorem renamedAtB_false_of_same (m : MapSt) (k : Nat) (s : Str)
    (hs : newNameAt m k = .ok s) (he : s = oldAt m k) : renamedAtB m k = false := by
  unfold renamedAtB
  rw [hs]
  simp [he]

theorem renamedAtB_true_of (m : MapSt) (k : Nat) (s : Str)
    (hd : docAtB m k = true) (hm : title_missing (adjustLegal (topicAt m k)) = false)
    (hs : newNameAt m k = .ok s) (hne : ¬ s = oldAt m k) : renamedAtB m k = true := by
  unfold renamedAtB
  rw [hd, hm, hs]
  simp [hne]

theorem linkSubstUpTo_succ_false (m : MapSt) (k : Nat) (h : renamedAtB m k = false) (l : Str) :
    linkSubstUpTo m (k + 1) l = linkSubstUpTo m k l := by
  conv_lhs => rw [linkSubstUpTo]
  rw [h]
  simp

theorem hrefSubstUpTo_succ_false (m : MapSt) (k : Nat) (h : renamedAtB m k = false) (l : Str) :
    hrefSubstUpTo m (k + 1) l = hrefSubstUpTo m k l := by
  conv_lhs => rw [hrefSubstUpTo]
  rw [h]
  simp

theorem linkSubstUpTo_succ_true (m : MapSt) (k : Nat) (h : renamedAtB m k = true) (l : Str) :
    linkSubstUpTo m (k + 1) l
      = stepSubst (oldAt m k) (newLinkAt m k) (linkSubstUpTo m k l) := by
  conv_lhs => rw [linkSubstUpTo]
  rw [h]
  simp

theorem hrefSubstUpTo_succ_true (m : MapSt) (k : Nat) (h : renamedAtB m k = true) (l : Str) :
    hrefSubstUpTo m (k + 1) l
      = stepSubst (oldAt m k) (newFullAt m k) (hrefSubstUpTo m k l) := by
  conv_lhs => rw [hrefSubstUpTo]
  rw [h]
  simp

theorem update_topicref_eq_map (hrefs : List Str) (old new : Str) :
    update_topicref hrefs old new = hrefs.map (stepSubst old new) := by
  unfold update_topicref stepSubst
  apply List.map_congr_left
  intro h _
  by_cases h1 : h = old
  · by_cases h2 : old = new
    · simp [h1, h2]
    · simp [h1, h2]
  · simp [h1]

theorem update_local_links_eq_map (links : List Str) (old new : Str) :
    update_local_links links old new = links.map (stepSubst old new) := rfl

/-! ## C1: the repetition dict reaches its closed form -/

theorem lookupA_append {α β : Type} [DecidableEq α] (l1 l2 : List (α × β)) (a : α) :
    lookupA (l1 ++ l2) a =
      match lookupA l1 a with
      | some v => some v
      | none => lookupA l2 a := by
  induction l1 with
  | nil => rfl
  | cons p rest ih =>
    obtain ⟨k1, v1⟩ := p
    simp only [List.cons_append, lookupA]
    by_cases hp : k1 = a
    · simp [hp]
    · simp only [if_neg hp]
      exact ih

theorem lookupA_update {β : Type} (reps : List (Option Str × β)) (k : Option Str) (n v : β)
    (h : lookupA reps k = some v) :
    lookupA (reps.map (fun p => if p.1 = k then (p.1, n) else p)) k = some n := by
  induction reps with
  | nil => cases h
  | cons p rest ih =>
    obtain ⟨k1, v1⟩ := p
    simp only [lookupA] at h
    simp only [List.map_cons]
    by_cases hp : k1 = k
    · rw [if_pos hp]
      simp only [lookupA]
      rw [if_pos hp]
    · rw [if_neg hp]
      rw [if_neg hp] at h
      simp only [lookupA]
      rw [if_neg hp]
      exact ih h

theorem lookupA_update_ne {β : Type} (reps : List (Option Str × β)) (k k' : Option Str) (n : β)
    (hne : k' ≠ k) :
    lookupA (reps.map (fun p => if p.1 = k then (p.1, n) else p)) k' = lookupA reps k' := by
  induction reps with
  | nil => rfl
  | cons p rest ih =>
    obtain ⟨k1, v1⟩ := p
    simp only [List.map_cons]
    by_cases hp : k1 = k
    · have hk' : k1 ≠ k' := fun hc => hne (by rw [← hc, hp])
      rw [if_pos hp]
      simp only [lookupA]
      rw [if_neg hk', if_neg hk']
      exact ih
    · rw [if_neg hp]
      simp only [lookupA]
      by_cases hp' : k1 = k'
      · rw [if_pos hp', if_pos hp']
      · rw [if_neg hp', if_neg hp']
        exact ih

theorem repsLookup_bump_self (reps : List (Option Str × Nat)) (k : Option Str) :
    repsLookup (bump reps k) k = repsLookup reps k + 1 := by
  unfold bump repsLookup
  cases h : lookupA reps k with
  | some n =>
    rw [lookupA_update reps k (n + 1) n h]
    rfl
  | none =>
    rw [lookupA_append, h]
    simp [lookupA]

theorem repsLookup_bump_ne (reps : List (Option Str × Nat)) (k k' : Option Str)
    (hne : k' ≠ k) : repsLookup (bump reps k) k' = repsLookup reps k' := by
  unfold bump repsLookup
  cases h : lookupA reps k with
  | some n => rw [lookupA_update_ne reps k k' (n + 1) hne]
  | none =>
    rw [lookupA_append]
    cases h' : lookupA reps k' with
    | some v => rfl
    | none => simp [lookupA, hne.symm]

theorem repsAt_lookup (m : MapSt) :
    ∀ j key, repsLookup (repsAt m j) key = titleCountUpTo m j key := by
  intro j
  induction j with
  | zero => intro key; rfl
  | succ k ih =>
    intro key
    unfold repsAt
    have hcount : titleCountUpTo m (k + 1) key
        = titleCountUpTo m k key
          + (if docAtB m k && decide ((topicAt m k).titleText = key) then 1 else 0) := by
      unfold titleCountUpTo
      rw [List.range_succ, List.countP_append]
      simp [List.countP_cons]
    by_cases hd : docAtB m k
    · rw [if_pos hd]
      by_cases hk : key = (topicAt m k).titleText
      · rw [hk, repsLookup_bump_self, ih]
        rw [hk] at hcount
        simp [hcount, hd]
      · rw [repsLookup_bump_ne _ _ _ hk, ih, hcount]
        have : decide ((topicAt m k).titleText = key) = false := by
          simp
          exact fun hc => hk hc.symm
        simp [this]
    · rw [if_neg hd, ih, hcount]
      have : docAtB m k = false := by simpa using hd
      simp [this]

/-! ## C1: one pass step moves the closed-form state one stage forward -/

theorem topicSt_ext (a b : TopicSt) (h1 : a.name = b.name) (h2 : a.ext = b.ext)
    (h3 : a.titleText = b.titleText) (h4 : a.titleItertext = b.titleItertext)
    (h5 : a.rootTag = b.rootTag) (h6 : a.outputclass = b.outputclass)
    (h7 : a.links = b.links) (h8 : a.ishName = b.ishName) : a = b := by
  cases a; cases b; simp_all

theorem mapSt_ext (a b : MapSt) (h1 : a.topics = b.topics) (h2 : a.hrefs = b.hrefs)
    (h3 : a.disk = b.disk) : a = b := by
  cases a; cases b; simp_all

theorem lt_succ_iff_ne (j k : Nat) (hjk : j ≠ k) : j < k + 1 ↔ j < k := by
  constructor
  · intro h
    rcases Nat.lt_succ_iff_lt_or_eq.mp h with h' | h'
    · exact h'
    · exact absurd h' hjk
  · exact fun h => Nat.lt_succ_of_lt h

theorem topicAtStage_succ_ne_false (m : MapSt) (k j : Nat) (hjk : j ≠ k)
    (hren : renamedAtB m k = false) :
    topicAtStage m (k + 1) j = topicAtStage m k j := by
  have hiff := lt_succ_iff_ne j k hjk
  have hl : (topicAt m j).links.map (linkSubstUpTo m (k + 1))
      = (topicAt m j).links.map (linkSubstUpTo m k) :=
    List.map_congr_left (fun l _ => linkSubstUpTo_succ_false m k hren l)
  unfold topicAtStage
  simp only [hiff, hl]

theorem topicAtStage_succ_ne_true (m : MapSt) (k j : Nat) (hjk : j ≠ k)
    (hren : renamedAtB m k = true) :
    topicAtStage m (k + 1) j =
      { topicAtStage m k j with
        links := (topicAtStage m k j).links.map (stepSubst (oldAt m k) (newLinkAt m k)) } := by
  have hiff := lt_succ_iff_ne j k hjk
  have hl : (topicAt m j).links.map (linkSubstUpTo m (k + 1))
      = ((topicAt m j).links.map (linkSubstUpTo m k)).map
          (stepSubst (oldAt m k) (newLinkAt m k)) := by
    rw [List.map_map]
    exact List.map_congr_left (fun l _ => linkSubstUpTo_succ_true m k hren l)
  unfold topicAtStage
  simp only [hiff, hl]

theorem topicAtStage_succ_self_skip (m : MapSt) (k : Nat) (hd : docAtB m k = true)
    (hren : renamedAtB m k = false) :
    topicAtStage m (k + 1) k = adjustLegal (topicAtStage m k k) := by
  have hl : (topicAt m k).links.map (linkSubstUpTo m (k + 1))
      = (topicAt m k).links.map (linkSubstUpTo m k) :=
    List.map_congr_left (fun l _ => linkSubstUpTo_succ_false m k hren l)
  apply topicSt_ext
  · show (if k < k + 1 ∧ renamedAtB m k = true then newFullAt m k else (topicAt m k).name) = _
    rw [adjustLegal_name, topicAtStage_name_self]
    simp [hren, oldAt]
  · rw [adjustLegal_ext, topicAtStage_ext]
    rfl
  · show (if k < k + 1 ∧ docAtB m k = true then (adjustLegal (topicAt m k)).titleText
        else (topicAt m k).titleText) = _
    rw [adjustLegal_titleText_stage]
    simp [hd, Nat.lt_succ_self]
  · rw [adjustLegal_titleItertext, topicAtStage_titleItertext]
    rfl
  · rw [adjustLegal_rootTag, topicAtStage_rootTag]
    rfl
  · rw [adjustLegal_outputclass, topicAtStage_outputclass]
    rfl
  · show (topicAt m k).links.map (linkSubstUpTo m (k + 1)) = _
    rw [adjustLegal_links, topicAtStage_links, hl]
  · show (if k < k + 1 ∧ renamedAtB m k = true ∧ (topicAt m k).ishName ≠ none
        then some (newStrAt m k ++ ishExt) else (topicAt m k).ishName) = _
    rw [adjustLegal_ishName, topicAtStage_ishName_self]
    simp [hren]

theorem topicAtStage_succ_self_renamed (m : MapSt) (k : Nat) (hd : docAtB m k = true)
    (hren : renamedAtB m k = true) :
    topicAtStage m (k + 1) k =
      { adjustLegal (topicAtStage m k k) with
        name := newFullAt m k
        links := (topicAt m k).links.map (linkSubstUpTo m (k + 1))
        ishName := if (topicAt m k).ishName ≠ none then some (newStrAt m k ++ ishExt)
                   else (topicAt m k).ishName } := by
  apply topicSt_ext
  · show (if k < k + 1 ∧ renamedAtB m k = true then newFullAt m k else (topicAt m k).name) = _
    simp [hren, Nat.lt_succ_self]
  · rw [adjustLegal_ext, topicAtStage_ext]
    rfl
  · show (if k < k + 1 ∧ docAtB m k = true then (adjustLegal (topicAt m k)).titleText
        else (topicAt m k).titleText) = _
    rw [adjustLegal_titleText_stage]
    simp [hd, Nat.lt_succ_self]
  · rw [adjustLegal_titleItertext, topicAtStage_titleItertext]
    rfl
  · rw [adjustLegal_rootTag, topicAtStage_rootTag]
    rfl
  · rw [adjustLegal_outputclass, topicAtStage_outputclass]
    rfl
  · rfl
  · show (if k < k + 1 ∧ renamedAtB m k = true ∧ (topicAt m k).ishName ≠ none
        then some (newStrAt m k ++ ishExt) else (topicAt m k).ishName) = _
    simp [hren, Nat.lt_succ_self]

theorem stateAt_topics_getElem_lt (m : MapSt) (k j : Nat) (hj : j < m.topics.length) :
    (stateAt m k).topics[j]? = some (topicAtStage m k j) := by
  show ((List.range m.topics.length).map (topicAtStage m k))[j]? = _
  rw [List.getElem?_map, List.getElem?_range hj]
  rfl

theorem stateAt_topics_getElem_ge (m : MapSt) (k j : Nat) (hj : m.topics.length ≤ j) :
    (stateAt m k).topics[j]? = none := by
  show ((List.range m.topics.length).map (topicAtStage m k))[j]? = _
  rw [List.getElem?_eq_none]
  rw [List.length_map, List.length_range]
  exact hj

theorem stateAt_topics_length (m : MapSt) (k : Nat) :
    (stateAt m k).topics.length = m.topics.length := by
  show ((List.range m.topics.length).map (topicAtStage m k)).length = _
  rw [List.length_map, List.length_range]

theorem stateAt_topics_getD (m : MapSt) (k j : Nat) (hj : j < m.topics.length) :
    (stateAt m k).topics.getD j default = topicAtStage m k j := by
  rw [List.getD_eq_getElem?_getD, stateAt_topics_getElem_lt m k j hj]
  rfl

theorem stateAt_hrefs (m : MapSt) (k : Nat) :
    (stateAt m k).hrefs = m.hrefs.map (hrefSubstUpTo m k) := rfl

theorem stateAt_disk (m : MapSt) (k : Nat) : (stateAt m k).disk = diskAt m k := rfl

/-- A skipped step (missing title, or derived name equal to the current one)
only applies the legal-title fix-up; the state still moves one stage. -/
theorem skip_state_eq (m : MapSt) (k : Nat) (hk : k < m.topics.length)
    (hd : docAtB m k = true) (hren : renamedAtB m k = false) :
    ({ stateAt m k with
        topics := (stateAt m k).topics.set k (adjustLegal (topicAtStage m k k)) } : MapSt)
      = stateAt m (k + 1) := by
  apply mapSt_ext
  · apply List.ext_getElem?
    intro j
    by_cases hjk : k = j
    · subst hjk
      rw [List.getElem?_set_self (by rw [stateAt_topics_length]; exact hk),
        stateAt_topics_getElem_lt m (k + 1) k hk,
        topicAtStage_succ_self_skip m k hd hren]
    · rw [List.getElem?_set_ne hjk]
      by_cases hj : j < m.topics.length
      · rw [stateAt_topics_getElem_lt m k j hj, stateAt_topics_getElem_lt m (k + 1) j hj,
          topicAtStage_succ_ne_false m k j (fun hc => hjk hc.symm) hren]
      · rw [stateAt_topics_getElem_ge m k j (Nat.le_of_not_lt hj),
          stateAt_topics_getElem_ge m (k + 1) j (Nat.le_of_not_lt hj)]
  · show (stateAt m k).hrefs = (stateAt m (k + 1)).hrefs
    rw [stateAt_hrefs, stateAt_hrefs]
    exact (List.map_congr_left (fun l _ => hrefSubstUpTo_succ_false m k hren l)).symm
  · show (stateAt m k).disk = (stateAt m (k + 1)).disk
    rw [stateAt_disk, stateAt_disk]
    conv_rhs => rw [diskAt]
    rw [hren]
    simp

/-- A renamed step applies exactly the closed-form stage update. -/
theorem apply_state_eq (m : MapSt) (k : Nat) (s : Str) (hk : k < m.topics.length)
    (hd : docAtB m k = true) (hren : renamedAtB m k = true)
    (hs : newNameAt m k = .ok s) :
    update_name_apply
        ({ stateAt m k with
            topics := (stateAt m k).topics.set k (adjustLegal (topicAtStage m k k)) } : MapSt)
        k (adjustLegal (topicAtStage m k k)) s
      = stateAt m (k + 1) := by
  have hsEq : newStrAt m k = s := newStrAt_eq m k s hs
  have hname : (adjustLegal (topicAtStage m k k)).name = oldAt m k := by
    rw [adjustLegal_name, topicAtStage_name_self]
  have hext : (adjustLegal (topicAtStage m k k)).ext = (topicAt m k).ext := by
    rw [adjustLegal_ext, topicAtStage_ext]
  have hlinks : (adjustLegal (topicAtStage m k k)).links
      = (topicAt m k).links.map (linkSubstUpTo m k) := by
    rw [adjustLegal_links, topicAtStage_links]
  have hish : (adjustLegal (topicAtStage m k k)).ishName = (topicAt m k).ishName := by
    rw [adjustLegal_ishName, topicAtStage_ishName_self]
  have hfull : s ++ (adjustLegal (topicAtStage m k k)).ext = newFullAt m k := by
    rw [hext]
    unfold newFullAt
    rw [hsEq]
  have hlink2 : s ++ (".dita".toList) = newLinkAt m k := by
    unfold newLinkAt
    rw [hsEq]
  have hHrefsEq : update_topicref (m.hrefs.map (hrefSubstUpTo m k))
      (adjustLegal (topicAtStage m k k)).name (s ++ (adjustLegal (topicAtStage m k k)).ext)
      = m.hrefs.map (hrefSubstUpTo m (k + 1)) := by
    rw [update_topicref_eq_map, hname, hfull, List.map_map]
    exact (List.map_congr_left (fun l _ => hrefSubstUpTo_succ_true m k hren l)).symm
  have hDisk1 : rename_path (diskAt m k) (adjustLegal (topicAtStage m k k)).name
      (s ++ (adjustLegal (topicAtStage m k k)).ext)
      = rename_path (diskAt m k) (oldAt m k) (newFullAt m k) := by
    rw [hname, hfull]
  have hlen0 : k < (stateAt m k).topics.length := by
    rw [stateAt_topics_length]
    exact hk
  have hNE : ∀ j, k ≠ j →
      ((((stateAt m k).topics.set k (adjustLegal (topicAtStage m k k))).set k
          { adjustLegal (topicAtStage m k k) with
            name := s ++ (adjustLegal (topicAtStage m k k)).ext }).map
        (fun t => { t with links := (update_local_links t.links
            (adjustLegal (topicAtStage m k k)).name (s ++ (".dita".toList))) }))[j]?
      = ((List.range m.topics.length).map (topicAtStage m (k + 1)))[j]? := by
    intro j hjk
    rw [List.set_set, List.getElem?_map, List.getElem?_set_ne hjk, List.getElem?_map]
    by_cases hj : j < m.topics.length
    · rw [stateAt_topics_getElem_lt m k j hj, List.getElem?_range hj]
      show some _ = some _
      congr 1
      rw [topicAtStage_succ_ne_true m k j (fun hc => hjk hc.symm) hren]
      apply topicSt_ext
      · rfl
      · rfl
      · rfl
      · rfl
      · rfl
      · rfl
      · show update_local_links (topicAtStage m k j).links
            (adjustLegal (topicAtStage m k k)).name (s ++ (".dita".toList)) = _
        rw [update_local_links_eq_map, hname, hlink2]
      · rfl
    · rw [stateAt_topics_getElem_ge m k j (Nat.le_of_not_lt hj),
        List.getElem?_eq_none (by rw [List.length_range]; exact Nat.le_of_not_lt hj)]
      rfl
  have hSelf : ∀ tfin : TopicSt,
      tfin.name = s ++ (adjustLegal (topicAtStage m k k)).ext →
      tfin.ext = (adjustLegal (topicAtStage m k k)).ext →
      tfin.titleText = (adjustLegal (topicAtStage m k k)).titleText →
      tfin.titleItertext = (adjustLegal (topicAtStage m k k)).titleItertext →
      tfin.rootTag = (adjustLegal (topicAtStage m k k)).rootTag →
      tfin.outputclass = (adjustLegal (topicAtStage m k k)).outputclass →
      tfin.links = update_local_links (adjustLegal (topicAtStage m k k)).links
          (adjustLegal (topicAtStage m k k)).name (s ++ (".dita".toList)) →
      tfin.ishName = (if (topicAt m k).ishName ≠ none then some (newStrAt m k ++ ishExt)
          else (topicAt m k).ishName) →
      tfin = topicAtStage m (k + 1) k := by
    intro tfin h1 h2 h3 h4 h5 h6 h7 h8
    rw [topicAtStage_succ_self_renamed m k hd hren]
    apply topicSt_ext
    · rw [h1, hfull]
    · rw [h2]
    · rw [h3]
    · rw [h4]
    · rw [h5]
    · rw [h6]
    · rw [h7, update_local_links_eq_map, hname, hlink2, hlinks, List.map_map]
      exact (List.map_congr_left (fun l _ => linkSubstUpTo_succ_true m k hren l)).symm
    · rw [h8]
  simp only [update_name_apply]
  split
  · -- `t1.ishName = none`
    rename_i heq
    have ht0 : (topicAt m k).ishName = none := by rw [← hish]; exact heq
    apply mapSt_ext
    · show (((stateAt m k).topics.set k (adjustLegal (topicAtStage m k k))).set k
          { adjustLegal (topicAtStage m k k) with
            name := s ++ (adjustLegal (topicAtStage m k k)).ext }).map
          (fun t => { t with links := (update_local_links t.links
              (adjustLegal (topicAtStage m k k)).name (s ++ (".dita".toList))) })
        = (List.range m.topics.length).map (topicAtStage m (k + 1))
      apply List.ext_getElem?
      intro j
      by_cases hjk : k = j
      · subst hjk
        rw [List.set_set, List.getElem?_map, List.getElem?_set_self hlen0,
          List.getElem?_map, List.getElem?_range hk]
        show some _ = some _
        congr 1
        apply hSelf
        · rfl
        · rfl
        · rfl
        · rfl
        · rfl
        · rfl
        · rfl
        · show (adjustLegal (topicAtStage m k k)).ishName = _
          rw [hish, ht0]
          simp
      · exact hNE j hjk
    · exact hHrefsEq
    · show rename_path (stateAt m k).disk _ _ = (stateAt m (k + 1)).disk
      rw [stateAt_disk, stateAt_disk]
      conv_rhs => rw [diskAt]
      rw [hren, ht0, if_pos rfl]
      exact hDisk1
  · -- `t1.ishName = some oldIsh`
    rename_i oldIsh heq
    have ht0 : (topicAt m k).ishName = some oldIsh := by rw [← hish]; exact heq
    apply mapSt_ext
    · show ((((stateAt m k).topics.set k (adjustLegal (topicAtStage m k k))).set k
          { adjustLegal (topicAtStage m k k) with
            name := s ++ (adjustLegal (topicAtStage m k k)).ext }).map
          (fun t => { t with links := (update_local_links t.links
              (adjustLegal (topicAtStage m k k)).name (s ++ (".dita".toList))) })).set k
          { adjustLegal (topicAtStage m k k) with
            name := s ++ (adjustLegal (topicAtStage m k k)).ext
            links := update_local_links (adjustLegal (topicAtStage m k k)).links
                (adjustLegal (topicAtStage m k k)).name (s ++ (".dita".toList))
            ishName := some (s ++ ishExt) }
        = (List.range m.topics.length).map (topicAtStage m (k + 1))
      apply List.ext_getElem?
      intro j
      rw [List.getElem?_set]
      by_cases hjk : k = j
      · subst hjk
        rw [if_pos rfl,
          if_pos (by rw [List.length_map, List.length_set, List.length_set,
            stateAt_topics_length]; exact hk),
          List.getElem?_map, List.getElem?_range hk]
        show some _ = some _
        congr 1
        apply hSelf
        · rfl
        · rfl
        · rfl
        · rfl
        · rfl
        · rfl
        · rfl
        · show some (s ++ ishExt) = _
          rw [ht0, hsEq]
          simp
      · rw [if_neg hjk]
        exact hNE j hjk
    · exact hHrefsEq
    · show (file_rename (rename_path (stateAt m k).disk _ _) oldIsh (s ++ ishExt)).2
          = (stateAt m (k + 1)).disk
      rw [stateAt_disk, stateAt_disk]
      conv_rhs => rw [diskAt]
      rw [hren, ht0, if_pos rfl, hDisk1, ← hsEq]

theorem topicAtStage_succ_self_nodoc (m : MapSt) (k : Nat) (hd : docAtB m k = false)
    (hren : renamedAtB m k = false) :
    topicAtStage m (k + 1) k = topicAtStage m k k := by
  have hl : (topicAt m k).links.map (linkSubstUpTo m (k + 1))
      = (topicAt m k).links.map (linkSubstUpTo m k) :=
    List.map_congr_left (fun l _ => linkSubstUpTo_succ_false m k hren l)
  unfold topicAtStage
  simp [hd, hren, hl, Nat.lt_irrefl]

theorem stateAt_succ_nodoc (m : MapSt) (k : Nat) (hk : k < m.topics.length)
    (hd : docAtB m k = false) :
    stateAt m (k + 1) = stateAt m k := by
  have hren : renamedAtB m k = false := by
    unfold renamedAtB
    rw [hd]
    simp
  apply mapSt_ext
  · apply List.ext_getElem?
    intro j
    by_cases hj : j < m.topics.length
    · rw [stateAt_topics_getElem_lt m (k + 1) j hj, stateAt_topics_getElem_lt m k j hj]
      show some _ = some _
      congr 1
      by_cases hjk : j = k
      · subst hjk
        exact topicAtStage_succ_self_nodoc m j hd hren
      · exact topicAtStage_succ_ne_false m k j hjk hren
    · rw [stateAt_topics_getElem_ge m (k + 1) j (Nat.le_of_not_lt hj),
        stateAt_topics_getElem_ge m k j (Nat.le_of_not_lt hj)]
  · show m.hrefs.map (hrefSubstUpTo m (k + 1)) = m.hrefs.map (hrefSubstUpTo m k)
    exact List.map_congr_left (fun l _ => hrefSubstUpTo_succ_false m k hren l)
  · show diskAt m (k + 1) = diskAt m k
    rw [diskAt, hren]
    simp

theorem topicAtStage_zero (m : MapSt) (i : Nat) : topicAtStage m 0 i = topicAt m i := by
  unfold topicAtStage
  simp [Nat.not_lt_zero, linkSubstUpTo]

theorem range_map_topicAt (m : MapSt) :
    (List.range m.topics.length).map (topicAt m) = m.topics := by
  apply List.ext_getElem?
  intro j
  rw [List.getElem?_map]
  by_cases hj : j < m.topics.length
  · rw [List.getElem?_range hj, List.getElem?_eq_getElem hj]
    show some _ = some _
    congr 1
    unfold topicAt
    rw [List.getD_eq_getElem _ _ hj]
  · rw [List.getElem?_eq_none (by rw [List.length_range]; exact Nat.le_of_not_lt hj),
      List.getElem?_eq_none (Nat.le_of_not_lt hj)]
    rfl

theorem stateAt_zero (m : MapSt) : stateAt m 0 = m := by
  apply mapSt_ext
  · show (List.range m.topics.length).map (topicAtStage m 0) = m.topics
    exact (List.map_congr_left (fun i _ => topicAtStage_zero m i)).trans (range_map_topicAt m)
  · show m.hrefs.map (hrefSubstUpTo m 0) = m.hrefs
    exact (List.map_congr_left (fun l _ => rfl)).trans (List.map_id m.hrefs)
  · rfl

/-- One full `update_name` call at a processed index moves the closed-form
state one stage forward. -/
theorem pass_step_doc (m : MapSt) (k : Nat) (hk : k < m.topics.length)
    (hd : docAtB m k = true)
    (hok : title_missing (adjustLegal (topicAt m k)) = false → newNameAt m k ≠ .indexError) :
    update_name (stateAt m k) k (repAt m k) = .ok (stateAt m (k + 1)) := by
  have hT : (stateAt m k).topics.getD k default = topicAtStage m k k :=
    stateAt_topics_getD m k k hk
  simp only [update_name, hT]
  cases hm : title_missing (adjustLegal (topicAt m k)) with
  | true =>
    rw [if_pos (show title_missing (adjustLegal (topicAtStage m k k)) = true from by
      rw [title_missing_stage]; exact hm)]
    have hren := renamedAtB_false_of_missing m k hm
    exact congrArg PassResult.ok (skip_state_eq m k hk hd hren)
  | false =>
    have hmS : title_missing (adjustLegal (topicAtStage m k k)) = false := by
      rw [title_missing_stage]; exact hm
    rw [if_neg (by simp [hmS])]
    cases hs : newNameAt m k with
    | indexError => exact absurd hs (hok hm)
    | ok s =>
      rw [(create_new_name_stage m k (repAt m k)).trans hs]
      dsimp only
      by_cases hsame : (adjustLegal (topicAtStage m k k)).name = s
      · rw [if_pos hsame]
        have hold : s = oldAt m k := by
          rw [← hsame, adjustLegal_name, topicAtStage_name_self]
        have hren := renamedAtB_false_of_same m k s hs hold
        exact congrArg PassResult.ok (skip_state_eq m k hk hd hren)
      · rw [if_neg hsame]
        have hold : ¬ s = oldAt m k := fun hc => hsame (by
          rw [adjustLegal_name, topicAtStage_name_self]; exact hc.symm)
        have hren := renamedAtB_true_of m k s hd hm hs hold
        exact congrArg PassResult.ok (apply_state_eq m k s hk hd hren hs)

/-- The whole pass reaches the closed-form final state. -/
theorem go_stateAt (m : MapSt)
    (hok : ∀ k, k < m.topics.length → docAtB m k = true →
      title_missing (adjustLegal (topicAt m k)) = false → newNameAt m k ≠ .indexError) :
    ∀ fuel k, k + fuel = m.topics.length →
      rename_topics_go (stateAt m k) (repsAt m k) (counterAt m k) k fuel
        = .ok (stateAt m m.topics.length, counterAt m m.topics.length) := by
  intro fuel
  induction fuel with
  | zero =>
    intro k hkf
    have hkn : k = m.topics.length := by omega
    subst hkn
    rfl
  | succ f ih =>
    intro k hkf
    have hk : k < m.topics.length := by omega
    simp only [rename_topics_go]
    rw [stateAt_topics_getD m k k hk]
    have hroot : (topicAtStage m k k).rootTag = (topicAt m k).rootTag := topicAtStage_rootTag m k k
    have htk : (topicAtStage m k k).titleText = (topicAt m k).titleText :=
      topicAtStage_titleText_self m k
    by_cases hd : (topicAt m k).rootTag ∈ doctypes
    · have hdB : docAtB m k = true := by unfold docAtB; simp [hd]
      rw [if_pos (by rw [hroot]; exact hd)]
      have hbump : bump (repsAt m k) (topicAtStage m k k).titleText = repsAt m (k + 1) := by
        rw [htk]
        conv_rhs => rw [repsAt]
        rw [hdB, if_pos rfl]
      have hnum : repsLookup (repsAt m (k + 1)) (topicAtStage m k k).titleText = repAt m k := by
        rw [htk]
        exact repsAt_lookup m (k + 1) (topicAt m k).titleText
      rw [hbump, hnum]
      rw [pass_step_doc m k hk hdB (hok k hk hdB)]
      have hcnt : counterAt m k + 1 = counterAt m (k + 1) := by
        conv_rhs => rw [counterAt]
        rw [hdB, if_pos rfl]
      rw [hcnt]
      exact ih (k + 1) (by omega)
    · have hdB : docAtB m k = false := by unfold docAtB; simp [hd]
      rw [if_neg (by rw [hroot]; exact hd)]
      have h1 : stateAt m k = stateAt m (k + 1) := (stateAt_succ_nodoc m k hk hdB).symm
      have h2 : repsAt m k = repsAt m (k + 1) := by
        conv_rhs => rw [repsAt]
        rw [hdB]
        simp
      have h3 : counterAt m k = counterAt m (k + 1) := by
        conv_rhs => rw [counterAt]
        rw [hdB]
        simp
      rw [h1, h2, h3]
      exact ih (k + 1) (by omega)

theorem rename_topics_stateAt (m : MapSt)
    (hok : ∀ k, k < m.topics.length → docAtB m k = true →
      title_missing (adjustLegal (topicAt m k)) = false → newNameAt m k ≠ .indexError) :
    rename_topics m = .ok (stateAt m m.topics.length, counterAt m m.topics.length) := by
  have h0 := go_stateAt m hok m.topics.length 0 (by omega)
  rw [stateAt_zero] at h0
  exact h0

/-! ## C1: reading the invariant off the final state -/

theorem topicAt_mem (m : MapSt) (i : Nat) (hi : i < m.topics.length) :
    topicAt m i ∈ m.topics := by
  unfold topicAt
  rw [List.getD_eq_getElem _ _ hi]
  exact List.getElem_mem hi

theorem linkSubstUpTo_before (m : MapSt) (i : Nat) (hi : i < m.topics.length)
    (Hdist : ∀ a, a < m.topics.length → ∀ b, b < m.topics.length → a ≠ b →
      oldAt m a ≠ oldAt m b) :
    ∀ k, k ≤ i → linkSubstUpTo m k (oldAt m i) = oldAt m i := by
  intro k
  induction k with
  | zero => intro _; rfl
  | succ k2 ih =>
    intro hki
    have hk2i : k2 < i := hki
    by_cases hren : renamedAtB m k2 = true
    · rw [linkSubstUpTo_succ_true m k2 hren, ih (Nat.le_of_lt hk2i)]
      unfold stepSubst
      rw [if_neg (Hdist i hi k2 (by omega) (by omega))]
    · rw [linkSubstUpTo_succ_false m k2 (by simpa using hren), ih (Nat.le_of_lt hk2i)]

theorem hrefSubstUpTo_before (m : MapSt) (i : Nat) (hi : i < m.topics.length)
    (Hdist : ∀ a, a < m.topics.length → ∀ b, b < m.topics.length → a ≠ b →
      oldAt m a ≠ oldAt m b) :
    ∀ k, k ≤ i → hrefSubstUpTo m k (oldAt m i) = oldAt m i := by
  intro k
  induction k with
  | zero => intro _; rfl
  | succ k2 ih =>
    intro hki
    have hk2i : k2 < i := hki
    by_cases hren : renamedAtB m k2 = true
    · rw [hrefSubstUpTo_succ_true m k2 hren, ih (Nat.le_of_lt hk2i)]
      unfold stepSubst
      rw [if_neg (Hdist i hi k2 (by omega) (by omega))]
    · rw [hrefSubstUpTo_succ_false m k2 (by simpa using hren), ih (Nat.le_of_lt hk2i)]

theorem linkSubstUpTo_final (m : MapSt) (i : Nat) (hi : i < m.topics.length)
    (hren : renamedAtB m i = true)
    (Hdist : ∀ a, a < m.topics.length → ∀ b, b < m.topics.length → a ≠ b →
      oldAt m a ≠ oldAt m b)
    (Hclash : ∀ a, a < m.topics.length → ∀ b, b < m.topics.length → a ≠ b →
      renamedAtB m a = true → newFullAt m a ≠ oldAt m b)
    (Hext : ∀ t ∈ m.topics, t.ext = (".dita".toList)) :
    ∀ k, i < k → k ≤ m.topics.length → linkSubstUpTo m k (oldAt m i) = newFullAt m i := by
  have hlinkfull : newLinkAt m i = newFullAt m i := by
    unfold newLinkAt newFullAt
    rw [Hext (topicAt m i) (topicAt_mem m i hi)]
  intro k
  induction k with
  | zero => intro h _; exact absurd h (Nat.not_lt_zero i)
  | succ k2 ih =>
    intro hik hkn
    by_cases hik2 : i < k2
    · have hih := ih hik2 (by omega)
      by_cases hren2 : renamedAtB m k2 = true
      · rw [linkSubstUpTo_succ_true m k2 hren2, hih]
        unfold stepSubst
        rw [if_neg (Hclash i hi k2 (by omega) (by omega) hren)]
      · rw [linkSubstUpTo_succ_false m k2 (by simpa using hren2), hih]
    · have hik0 : k2 = i := by omega
      subst hik0
      rw [linkSubstUpTo_succ_true m k2 hren,
        linkSubstUpTo_before m k2 (by omega) Hdist k2 (Nat.le_refl k2)]
      unfold stepSubst
      rw [if_pos rfl, hlinkfull]

theorem hrefSubstUpTo_final (m : MapSt) (i : Nat) (hi : i < m.topics.length)
    (hren : renamedAtB m i = true)
    (Hdist : ∀ a, a < m.topics.length → ∀ b, b < m.topics.length → a ≠ b →
      oldAt m a ≠ oldAt m b)
    (Hclash : ∀ a, a < m.topics.length → ∀ b, b < m.topics.length → a ≠ b →
      renamedAtB m a = true → newFullAt m a ≠ oldAt m b) :
    ∀ k, i < k → k ≤ m.topics.length → hrefSubstUpTo m k (oldAt m i) = newFullAt m i := by
  intro k
  induction k with
  | zero => intro h _; exact absurd h (Nat.not_lt_zero i)
  | succ k2 ih =>
    intro hik hkn
    by_cases hik2 : i < k2
    · have hih := ih hik2 (by omega)
      by_cases hren2 : renamedAtB m k2 = true
      · rw [hrefSubstUpTo_succ_true m k2 hren2, hih]
        unfold stepSubst
        rw [if_neg (Hclash i hi k2 (by omega) (by omega) hren)]
      · rw [hrefSubstUpTo_succ_false m k2 (by simpa using hren2), hih]
    · have hik0 : k2 = i := by omega
      subst hik0
      rw [hrefSubstUpTo_succ_true m k2 hren,
        hrefSubstUpTo_before m k2 (by omega) Hdist k2 (Nat.le_refl k2)]
      unfold stepSubst
      rw [if_pos rfl]

theorem topicAtStage_name_renamed (m : MapSt) (n i : Nat) (hi : i < n)
    (hren : renamedAtB m i = true) : (topicAtStage m n i).name = newFullAt m i := by
  unfold topicAtStage
  simp [hi, hren]

theorem topicAtStage_ish_renamed (m : MapSt) (n i : Nat) (hi : i < n)
    (hren : renamedAtB m i = true) (hish : (topicAt m i).ishName ≠ none) :
    (topicAtStage m n i).ishName = some (newStrAt m i ++ ishExt) := by
  unfold topicAtStage
  simp [hi, hren, hish]

/-! ## C1: the claim, corrected -/

/-- C1 counterexample: the pass on `cexMap` renames topic 0 from `a.dita` to
`t_Install.dita`, but topic 1's old file name was `t_Install.dita`, so topic
1's later rename rewrites both the topicref and the link that had just been
pointed at topic 0: after the pass the map entry that pointed at topic 0 and
topic 1's link to topic 0 both read `t_Setup.dita`, which is not topic 0's
new name.  The claim as stated is false. -/
theorem claim_C1_counterexample :
    (passMap (rename_topics cexMap)).topics.map (fun t => t.name)
        = [("t_Install.dita".toList), ("t_Setup.dita".toList)]
    ∧ cexMap.topics.map (fun t => t.name) = [("a.dita".toList), ("t_Install.dita".toList)]
    ∧ cexMap.hrefs[0]? = some ("a.dita".toList)
    ∧ (passMap (rename_topics cexMap)).hrefs[0]? = some ("t_Setup.dita".toList)
    ∧ (cexMap.topics.getD 1 default).links = [("a.dita".toList)]
    ∧ ((passMap (rename_topics cexMap)).topics.getD 1 default).links = [("t_Setup.dita".toList)]
    ∧ ("t_Setup.dita".toList) ≠ ("t_Install.dita".toList)
    ∧ rename_topics cexMap ≠ .indexError :=
  ⟨rfl, rfl, rfl, rfl, rfl, rfl, by decide, by decide⟩

/-- C1 (amended): on a map without legal-information topics, whose topics all
have the `.dita` extension and pairwise distinct file names, where no
processed topic hits the `IndexError` edge case, and where no renamed
topic's new file name equals a *different* topic's pre-pass file name, the
pass reaches the closed-form final state, and for every topic T the pass
renames: T's final name is its new full name, every topic's local link that
pointed at T's old name now points at T's new full name, every map topicref
that pointed at T's old name now carries T's new full name, and T's sidecar
record is renamed with it in the same pass. -/
theorem claim_C1 (m : MapSt)
    (_Hlegal : ∀ t ∈ m.topics, t.outputclass ≠ some ("legalinformation".toList))
    (Hext : ∀ t ∈ m.topics, t.ext = (".dita".toList))
    (Hdist : ∀ a, a < m.topics.length → ∀ b, b < m.topics.length → a ≠ b →
      oldAt m a ≠ oldAt m b)
    (Hok : ∀ k, k < m.topics.length → newNameAt m k ≠ PassResult.indexError)
    (Hclash : ∀ a, a < m.topics.length → ∀ b, b < m.topics.length → a ≠ b →
      renamedAtB m a = true → newFullAt m a ≠ oldAt m b) :
    rename_topics m = .ok (stateAt m m.topics.length, counterAt m m.topics.length)
    ∧ ∀ i, i < m.topics.length → renamedAtB m i = true →
        ((stateAt m m.topics.length).topics.getD i default).name = newFullAt m i
        ∧ (∀ j, j < m.topics.length → ∀ p : Nat,
            ((topicAt m j).links)[p]? = some (oldAt m i) →
            (((stateAt m m.topics.length).topics.getD j default).links)[p]?
              = some (newFullAt m i))
        ∧ (∀ p : Nat, m.hrefs[p]? = some (oldAt m i) →
            ((stateAt m m.topics.length).hrefs)[p]? = some (newFullAt m i))
        ∧ ((topicAt m i).ishName ≠ none →
            ((stateAt m m.topics.length).topics.getD i default).ishName
              = some (newStrAt m i ++ ishExt)) := by
  constructor
  · exact rename_topics_stateAt m (fun k hk _ _ => Hok k hk)
  · intro i hi hren
    refine ⟨?_, ?_, ?_, ?_⟩
    · rw [stateAt_topics_getD m _ i hi]
      exact topicAtStage_name_renamed m m.topics.length i hi hren
    · intro j hj p hp
      rw [stateAt_topics_getD m _ j hj, topicAtStage_links, List.getElem?_map, hp]
      show some _ = some _
      congr 1
      exact linkSubstUpTo_final m i hi hren Hdist Hclash Hext m.topics.length hi
        (Nat.le_refl _)
    · intro p hp
      rw [stateAt_hrefs, List.getElem?_map, hp]
      show some _ = some _
      congr 1
      exact hrefSubstUpTo_final m i hi hren Hdist Hclash m.topics.length hi (Nat.le_refl _)
    · intro hish
      rw [stateAt_topics_getD m _ i hi]
      exact topicAtStage_ish_renamed m m.topics.length i hi hren hish

/-- C1 witness: the amended theorem applied to a concrete two-topic map with
a sidecar record on the first topic and a cross-topic link on the second. -/
theorem claim_C1_witness :
    rename_topics c1wMap
        = .ok (stateAt c1wMap c1wMap.topics.length, counterAt c1wMap c1wMap.topics.length)
    ∧ ∀ i, i < c1wMap.topics.length → renamedAtB c1wMap i = true →
        ((stateAt c1wMap c1wMap.topics.length).topics.getD i default).name = newFullAt c1wMap i
        ∧ (∀ j, j < c1wMap.topics.length → ∀ p : Nat,
            ((topicAt c1wMap j).links)[p]? = some (oldAt c1wMap i) →
            (((stateAt c1wMap c1wMap.topics.length).topics.getD j default).links)[p]?
              = some (newFullAt c1wMap i))
        ∧ (∀ p : Nat, c1wMap.hrefs[p]? = some (oldAt c1wMap i) →
            ((stateAt c1wMap c1wMap.topics.length).hrefs)[p]? = some (newFullAt c1wMap i))
        ∧ ((topicAt c1wMap i).ishName ≠ none →
            ((stateAt c1wMap c1wMap.topics.length).topics.getD i default).ishName
              = some (newStrAt c1wMap i ++ ishExt)) :=
  claim_C1 c1wMap (by decide) (by decide) (by decide) (by decide) (by decide)

/-! ## C7: degenerate titles and the second-position underscore rule -/

/-- C7: for every topic and repetition index, when the name derived from the
title is shorter than two characters or is exactly `Rev`, `create_new_name`
returns the topic's existing file name; otherwise, when the second character
of the derived name (after the trailing-underscore strip) is an underscore,
the first two characters are dropped before the type letter is prepended and
the repetition suffix appended. -/
theorem claim_C7 (t : TopicSt) (numRep : Nat) :
    (deriveTitleName (actualTitleText t) = ("Rev".toList)
        ∨ (deriveTitleName (actualTitleText t)).length < 2 →
      create_new_name t numRep = .ok t.name)
    ∧ (¬(deriveTitleName (actualTitleText t) = ("Rev".toList)
          ∨ (deriveTitleName (actualTitleText t)).length < 2) →
      (stripTrailingUnderscore (deriveTitleName (actualTitleText t))).get? 1 = some '_' →
      create_new_name t numRep =
        .ok (ocLetter t
             ++ (stripTrailingUnderscore (deriveTitleName (actualTitleText t))).drop 2
             ++ repSuffix numRep)) := by
  constructor
  · intro h
    unfold create_new_name
    rw [if_pos h]
  · intro h1 h2
    simp only [create_new_name]
    rw [if_neg h1, h2]
    unfold ocLetter repSuffix
    cases ho : t.outputclass.bind (fun oc => lookupA outputclasses oc) with
    | none => by_cases hr : numRep > 1 <;> simp [ho, hr]
    | some p => by_cases hr : numRep > 1 <;> simp [ho, hr, List.append_assoc]

/-- C7 witness: the topic titled "A Guide" derives `A_Guide`, whose second
character is an underscore, and is renamed to `t_Guide`. -/
theorem claim_C7_witness :
    (¬(deriveTitleName (actualTitleText c7topic) = ("Rev".toList)
        ∨ (deriveTitleName (actualTitleText c7topic)).length < 2))
    ∧ (stripTrailingUnderscore (deriveTitleName (actualTitleText c7topic))).get? 1 = some '_'
    ∧ create_new_name c7topic 1 =
        .ok (ocLetter c7topic
             ++ (stripTrailingUnderscore (deriveTitleName (actualTitleText c7topic))).drop 2
             ++ repSuffix 1) :=
  ⟨by decide, by decide, (claim_C7 c7topic 1).2 (by decide) (by decide)⟩

end Marytreat
